import Mathlib

/-!
Shallow embedding of the interview-session orchestrator of the
homeworkvalidator repository (frontend `src/frontend/app/page.js`, backend
`src/backend/index.js`).  React state hooks become fields of an explicit
`State` record; each event handler becomes a pure function on `State`; the
asynchronous continuations (the code after an `await`) become separate
"resolve" functions taking the resolved value (`Except`/`Option`) as an
argument.  Handlers are modelled as atomic: each one reads and writes the
then-current state, which matches the single-threaded event-loop model the
code runs under.
-/

namespace HomeworkValidator

/-- Speaker of a turn (`turn.role` in the source: "ai" | "student"). -/
inductive Role where
  | ai
  | student
deriving DecidableEq, Repr

/-- Topic status (`topic.status`: "pending" | "active" | "done"). -/
inductive TStatus where
  | pending
  | active
  | done
deriving DecidableEq, Repr

/-- Session phase (`phase` state: "upload" | "analyzing" | "modeSelect" |
"prep" | "interview" | "finalizing" | "result").  The `prep` phase carries
the index of the topic being prepared, which in the source lives in the
closure of the in-flight `prepareTopic(index, ...)` call. -/
inductive Phase where
  | upload
  | analyzing
  | modeSelect
  | prep (target : Nat)
  | interview
  | finalizing
  | result
deriving DecidableEq, Repr

/-- Transition modal (`modal.type`: "manual-exit" | "auto-exit"). -/
inductive Modal where
  | manualExit
  | autoExit
deriving DecidableEq, Repr

/-- Interview modality (`interviewMode`: "chat" | "voice"). -/
inductive Mode where
  | chat
  | voice
deriving DecidableEq, Repr

/-- One conversation turn (`{ role, text }`). -/
structure Turn where
  role : Role
  text : String
deriving DecidableEq, Repr

/-- Topic metadata as returned by the backend analysis
(`{ id, title, description }`). -/
structure TopicInfo where
  id : String
  title : String
  description : String
deriving DecidableEq, Repr

/-- A topic as stored in `topicsState`: the analysis fields together with
the per-topic interview state added by `handleUpload`'s normalisation. -/
structure Topic where
  id : String
  title : String
  description : String
  timeLeft : Int
  turns : List Turn
  status : TStatus
  started : Bool
  asked : Bool
deriving DecidableEq, Repr

/-- Final structured assessment (`{ strengths, weaknesses, overallComment }`). -/
structure Summary where
  strengths : List String
  weaknesses : List String
  overallComment : String
deriving DecidableEq, Repr

/-- The pending continuation of an in-flight question-generation request
issued by `handleSend` / `handleVoiceSubmit`: the topic index and the
`nextTurns` array captured by the closure at submission time. -/
structure PendingGen where
  origIndex : Nat
  nextTurns : List Turn
deriving DecidableEq, Repr

/-- The orchestrator state: one field per `useState` hook of `Home`, plus
the observable flags of the speech hooks (`isSpeaking`, `isListening`,
`isTranscribing`). -/
structure State where
  phase : Phase
  assignTopics : List Topic
  assignText : String
  topicsState : List Topic
  currentTopicIndex : Nat
  aiGenerating : Bool
  isTyping : Bool
  studentInput : String
  error : String
  resultSummary : Option Summary
  modal : Option Modal
  autoCountdown : Int
  advancing : Bool
  interviewMode : Option Mode
  turnSubmitted : Bool
  isSpeaking : Bool
  isListening : Bool
  isTranscribing : Bool
deriving DecidableEq, Repr

/-- The `TOPIC_SECONDS` constant. -/
def TOPIC_SECONDS : Int := 180

/-- The `AUTO_ADVANCE_SECONDS` constant. -/
def AUTO_ADVANCE_SECONDS : Int := 5

/-- JavaScript `String.prototype.trim()`: strip leading and trailing
whitespace. -/
def jsTrim (s : String) : String :=
  String.mk (((s.data.dropWhile Char.isWhitespace).reverse.dropWhile
    Char.isWhitespace).reverse)

example : jsTrim "  abc " = "abc" := by decide
example : jsTrim "   " = "" := by decide
example : jsTrim "answer" = "answer" := by decide

/-- Indexed map `list.map((x, idx) => f(idx, x))` starting at index `n`: the
map used pervasively by the source (`topicsState.map((t, idx) => ...)`). -/
def mapIdxF (f : Nat → α → β) : Nat → List α → List β
  | _, [] => []
  | n, a :: as => f n a :: mapIdxF f (n + 1) as

theorem length_mapIdxF (f : Nat → α → β) :
    ∀ (n : Nat) (l : List α), (mapIdxF f n l).length = l.length := by
  intro n l
  induction l generalizing n with
  | nil => rfl
  | cons a as ih => simp [mapIdxF, ih]

theorem getElem?_mapIdxF (f : Nat → α → β) :
    ∀ (l : List α) (n i : Nat), (mapIdxF f n l)[i]? = (l[i]?).map (f (n + i)) := by
  intro l
  induction l with
  | nil => intro n i; simp [mapIdxF]
  | cons a as ih =>
    intro n i
    cases i with
    | zero => simp [mapIdxF]
    | succ j =>
      simp only [mapIdxF, List.getElem?_cons_succ, ih (n + 1) j]
      have h : n + 1 + j = n + (j + 1) := by omega
      rw [h]

/-- The initial state: the initial values of the `useState` hooks.
`handleReset` restores exactly this state. -/
def initState : State where
  phase := .upload
  assignTopics := []
  assignText := ""
  topicsState := []
  currentTopicIndex := 0
  aiGenerating := false
  isTyping := false
  studentInput := ""
  error := ""
  resultSummary := none
  modal := none
  autoCountdown := AUTO_ADVANCE_SECONDS
  advancing := false
  interviewMode := none
  turnSubmitted := false
  isSpeaking := false
  isListening := false
  isTranscribing := false

/-- The value `topicsState[currentTopicIndex]` (`currentTopic` in the source, which
can be `undefined` when the index is out of range). -/
def currentTopic? (s : State) : Option Topic :=
  s.topicsState[s.currentTopicIndex]?

/-- Synchronous part of `handleUpload` up to the `await`: clear the error
and enter the `analyzing` phase. -/
def uploadStartFn (s : State) : State :=
  if s.phase = .upload then { s with error := "", phase := .analyzing } else s

/-- Continuation of `handleUpload` after `apiFetch("/api/analyze", ...)`
resolves.  `none` models a rejected promise (file error, non-2xx response);
`some (rawTopics, text)` models the parsed response body
(`data.analysis.topics`, `data.text`). -/
def analyzeResolveFn (s : State) (res : Option (List TopicInfo × String)) : State :=
  match res with
  | none => { s with error := "업로드에 실패했습니다.", phase := .upload }
  | some (rawTopics, text) =>
    let topics := rawTopics.take 3
    if topics.isEmpty then
      { s with error := "AI가 주제를 만들지 못했습니다.", phase := .upload }
    else
      let normalizedTopics := mapIdxF (fun idx t =>
        ({ id := t.id, title := t.title, description := t.description,
           timeLeft := TOPIC_SECONDS, turns := [],
           status := if idx = 0 then TStatus.active else TStatus.pending,
           started := false, asked := false } : Topic)) 0 topics
      { s with assignTopics := normalizedTopics, assignText := text,
               topicsState := normalizedTopics, currentTopicIndex := 0,
               phase := .modeSelect }

/-- Handler `handleModeSelect(mode)` followed by the synchronous prefix of
`prepareTopic(0, ...)` (everything before the `await apiFetch`). -/
def modeSelectFn (s : State) (m : Mode) : State :=
  if s.phase = .modeSelect then
    { s with interviewMode := some m, phase := .prep 0, modal := none,
             aiGenerating := true, studentInput := "", isTyping := false }
  else s

/-- Continuation of `prepareTopic(index, ...)`: the early-return branch for
an already-asked topic, the success branch appending the opening AI turn,
and the catch branch falling back to `upload`.  Setting `advancing := false`
models the `setAdvancing(false)` tail of `completeTopic`, which runs once
the awaited `prepareTopic` resolves (it is already false when preparation
was started from `handleModeSelect`). -/
def prepResolveFn (s : State) (res : Except Unit String) : State :=
  match s.phase with
  | .prep tgt =>
    match s.topicsState[tgt]? with
    | none => s
    | some topic =>
      let alreadyHasQuestion := topic.turns.any (fun turn => decide (turn.role = Role.ai))
      if topic.asked && alreadyHasQuestion then
        { s with
          topicsState := mapIdxF (fun idx t =>
            { t with status := if idx = tgt then TStatus.active
                               else if idx < tgt then TStatus.done
                               else t.status }) 0 s.topicsState,
          currentTopicIndex := tgt, aiGenerating := false,
          phase := .interview, advancing := false }
      else
        match res with
        | .ok q =>
          let questionText := if q = "" then "이 부분을 왜 이렇게 작성하셨나요?" else q
          { s with
            topicsState := mapIdxF (fun idx t =>
              if idx = tgt then
                { t with turns := t.turns ++ [⟨Role.ai, questionText⟩],
                         status := TStatus.active,
                         timeLeft := if t.timeLeft = 0 then TOPIC_SECONDS else t.timeLeft,
                         started := true, asked := true }
              else
                { t with status := if idx < tgt then TStatus.done else t.status })
              0 s.topicsState,
            currentTopicIndex := tgt, aiGenerating := false,
            phase := .interview, advancing := false }
        | .error _ =>
          { s with error := "첫 질문 생성에 실패했습니다. 다시 시도해 주세요.",
                   phase := .upload, aiGenerating := false, advancing := false }
  | _ => s

/-- Synchronous part of `handleSend`: reject empty/whitespace-only input or
a missing current topic, otherwise append the student's turn, clear the
input box, and mark a generation request in flight.  The returned
`PendingGen` is the closure data (`currentTopicIndex`, `nextTurns`) used by
the continuation. -/
def handleSend (s : State) : State × Option PendingGen :=
  if jsTrim s.studentInput = "" then (s, none)
  else
    match currentTopic? s with
    | none => (s, none)
    | some t =>
      let message := jsTrim s.studentInput
      let nextTurns := t.turns ++ [⟨Role.student, message⟩]
      ({ s with studentInput := "", isTyping := false,
                topicsState := mapIdxF (fun idx tp =>
                  if idx = s.currentTopicIndex then { tp with turns := nextTurns }
                  else tp) 0 s.topicsState,
                aiGenerating := true },
       some ⟨s.currentTopicIndex, nextTurns⟩)

/-- Synchronous part of `handleVoiceSubmit` (with the awaited
`stopListening()` transcription passed in as `transcribedText`): reject if
a turn was already submitted, there is no current topic, or transcription
is in progress; otherwise substitute `"(응답 없음)"` for an empty
transcript, append the student's turn and mark a generation request in
flight. -/
def handleVoiceSubmit (s : State) (transcribedText : String) :
    State × Option PendingGen :=
  if s.turnSubmitted then (s, none)
  else
    match currentTopic? s with
    | none => (s, none)
    | some t =>
      if s.isTranscribing then (s, none)
      else
        let message := jsTrim transcribedText
        let studentResponse := if message = "" then "(응답 없음)" else message
        let nextTurns := t.turns ++ [⟨Role.student, studentResponse⟩]
        ({ s with turnSubmitted := true, isListening := false,
                  studentInput := "",
                  topicsState := mapIdxF (fun idx tp =>
                    if idx = s.currentTopicIndex then { tp with turns := nextTurns }
                    else tp) 0 s.topicsState,
                  aiGenerating := true },
         some ⟨s.currentTopicIndex, nextTurns⟩)

/-- Continuation of `handleSend` / `handleVoiceSubmit` after
`fetchQuestion` settles.  On success the AI turn is appended to the topic
at the closure's `origIndex` (`idx === currentTopicIndex` evaluated with
the captured index); the `data.question || fallback` default of
`fetchQuestion` is applied here.  On failure only the error banner is set.
Either way the `finally` clause clears `aiGenerating`. -/
def sendResolveFn (s : State) (p : PendingGen) (res : Except Unit String) : State :=
  match res with
  | .ok q =>
    let questionText := if q = "" then "이 부분을 왜 이렇게 작성하셨나요?" else q
    { s with topicsState := mapIdxF (fun idx t =>
               if idx = p.origIndex then
                 { t with turns := p.nextTurns ++ [⟨Role.ai, questionText⟩] }
               else t) 0 s.topicsState,
             aiGenerating := false }
  | .error _ =>
    { s with error := "질문 생성에 실패했습니다. 다시 시도해 주세요.",
             aiGenerating := false }

/-- The `shouldTick` predicate of the timer effect, evaluated on the
current topic `t`. -/
def shouldTick (s : State) (t : Topic) : Bool :=
  decide (s.modal = some Modal.manualExit) ||
  ((s.isTyping || t.started) && !s.aiGenerating && !s.isSpeaking &&
    !(decide (s.modal = some Modal.autoExit)))

/-- One firing of the countdown interval: decrement the current topic's
`timeLeft` (clamped at 0) when the timer effect is active, i.e. the phase
is `interview`, a current topic exists with positive `timeLeft`, and
`shouldTick` holds. -/
def tickState (s : State) : State :=
  if s.phase = .interview then
    match currentTopic? s with
    | none => s
    | some t =>
      if t.timeLeft ≤ 0 then s
      else if shouldTick s t then
        { s with topicsState := mapIdxF (fun idx tp =>
            if idx = s.currentTopicIndex then
              { tp with timeLeft := max 0 (tp.timeLeft - 1) }
            else tp) 0 s.topicsState }
      else s
  else s

/-- The zero-crossing effect: when the phase is `interview`, the current
topic's `timeLeft` is not positive, no `auto-exit` modal is open and no
advance is in progress, `triggerAutoModal()` opens the `auto-exit` modal
with the countdown reset to `AUTO_ADVANCE_SECONDS`. -/
def checkExhaustedFn (s : State) : State :=
  if s.phase = .interview then
    match currentTopic? s with
    | none => s
    | some t =>
      if 0 < t.timeLeft then s
      else if s.modal = some Modal.autoExit ∨ s.advancing then s
      else { s with modal := some Modal.autoExit,
                    autoCountdown := AUTO_ADVANCE_SECONDS }
  else s

/-- Handler `completeTopic(reason)` up to its first `await`: the `advancing`
re-entrancy guard, the reset of modal/generation/typing/input/speech
state, marking the current topic `done` (with `timeLeft` clamped at 0),
and the synchronous prefix of either `prepareTopic(nextIndex, ...)` or
`finalizeSession(...)`. -/
def completeTopicStart (s : State) : State :=
  if s.advancing then s
  else
    let updated := mapIdxF (fun idx t =>
      if idx = s.currentTopicIndex then
        { t with status := TStatus.done, timeLeft := max 0 t.timeLeft }
      else t) 0 s.topicsState
    let base := { s with advancing := true, modal := none,
                         aiGenerating := false, isTyping := false,
                         studentInput := "", isSpeaking := false,
                         isListening := false, topicsState := updated }
    if s.currentTopicIndex + 1 < s.topicsState.length then
      { base with phase := .prep (s.currentTopicIndex + 1), aiGenerating := true }
    else
      { base with phase := .finalizing }

/-- Continuation of `finalizeSession` after `apiFetch("/api/summary", ...)`
settles: store the summary on success, set the error banner on failure,
and in the `finally` clause always enter the `result` phase and clear
`aiGenerating`; the awaiting `completeTopic` then clears `advancing`. -/
def summaryResolveFn (s : State) (res : Except Unit Summary) : State :=
  match res with
  | .ok sum =>
    { s with resultSummary := some sum, phase := .result,
             aiGenerating := false, advancing := false }
  | .error _ =>
    { s with error := "결과 요약에 실패했습니다. 다시 시도해 주세요.",
             phase := .result, aiGenerating := false, advancing := false }

/-- One firing of the auto-advance countdown interval (active only while
the `auto-exit` modal is open): at `autoCountdown ≤ 1` the interval is
cleared, the countdown set to 0 and `completeTopic("auto")` invoked,
otherwise the countdown is decremented. -/
def autoTickFn (s : State) : State :=
  if s.modal = some Modal.autoExit then
    if s.autoCountdown ≤ 1 then completeTopicStart { s with autoCountdown := 0 }
    else { s with autoCountdown := s.autoCountdown - 1 }
  else s

/-- The `inputDisabled` flag: the chat/voice inputs and the send button are disabled
outside the interview phase, while generating, or under the `auto-exit`
modal. -/
def inputDisabled (s : State) : Prop :=
  s.phase ≠ .interview ∨ s.aiGenerating = true ∨ s.modal = some Modal.autoExit

instance (s : State) : Decidable (inputDisabled s) := by
  unfold inputDisabled; infer_instance

/-- Typing into the answer box: `setStudentInput(value)` plus the
`onTyping` handler (`setIsTyping(true)`); possible only while the input is
enabled. -/
def typeInputFn (s : State) (v : String) : State :=
  if inputDisabled s then s else { s with studentInput := v, isTyping := true }

/-- The `onManualExit` button (`setModal({ type: "manual-exit" })`),
rendered only in the interview phase and disabled under the `auto-exit`
modal. -/
def openManualFn (s : State) : State :=
  if s.phase = .interview ∧ s.modal ≠ some Modal.autoExit then
    { s with modal := some Modal.manualExit }
  else s

/-- The `onCancelExit` button (`setModal(null)`). -/
def cancelManualFn (s : State) : State :=
  if s.phase = .interview then { s with modal := none } else s

/-- Handler `handleReset`, offered on the result card: restore the initial state. -/
def resetFn (s : State) : State :=
  if s.phase = .result then initState else s

/-- Backend `/api/analyze` topic normalisation, as a function of the
parsed LLM response.  `parsed = none`: JSON parsing failed, so the
hardcoded single fallback topic is substituted; `parsed = some none`: the
JSON parsed but `topics` is missing or not an array, yielding `[]`;
`parsed = some (some l)`: the topic array, truncated to 5 and normalised
(`id`/`title` defaults for missing fields). -/
def backendAnalyzeTopics (parsed : Option (Option (List TopicInfo))) :
    List TopicInfo :=
  match parsed with
  | none =>
    [⟨"t1", "주제 1", "AI 응답을 파싱하지 못했습니다. 다시 시도해 주세요."⟩]
  | some none => []
  | some (some l) =>
    mapIdxF (fun idx t =>
      ({ id := if t.id = "" then "t" ++ toString (idx + 1) else t.id,
         title := if t.title = "" then "주제 " ++ toString (idx + 1) else t.title,
         description := t.description } : TopicInfo)) 0 (l.take 5)

/-- The placeholder assessment substituted by the backend `/api/summary`
handler when the LLM's answer cannot be parsed as JSON. -/
def summaryPlaceholder : Summary where
  strengths := []
  weaknesses := ["요약 생성에 실패했습니다. 다시 시도해 주세요."]
  overallComment := "학생의 응답이 없어 이해도를 평가할 수 없습니다."

/-- Backend `/api/summary` handler.  `transcript = ""` is a 400 error;
`llmOutcome = .error ()` models `runLLM` throwing (a 500 `summary_failed`
response); `llmOutcome = .ok parsed` carries the LLM text's parse result,
with the placeholder substituted when parsing failed. -/
def backendSummary (transcript : String)
    (llmOutcome : Except Unit (Option Summary)) : Except Unit Summary :=
  if transcript = "" then Except.error ()
  else
    match llmOutcome with
    | .error _ => Except.error ()
    | .ok parsed => Except.ok (parsed.getD summaryPlaceholder)

/-- The externally triggered events of the orchestrator: user actions,
timer firings, and resolutions of the asynchronous requests. -/
inductive Event where
  | uploadStartEv
  | analyzeResolve (res : Option (List TopicInfo × String))
  | modeSelectEv (m : Mode)
  | prepResolve (res : Except Unit String)
  | typeInput (v : String)
  | typingTimeout
  | sendStartEv
  | sendResolve (p : PendingGen) (res : Except Unit String)
  | voiceSubmitEv (transcribedText : String)
  | tickEv
  | exhaustedEv
  | openManualEv
  | cancelManualEv
  | confirmExitEv
  | autoTickEv
  | summaryResolve (res : Except Unit Summary)
  | resetEv
  | speakStartEv
  | speakEndEv
  | listenStartEv
  | listenEndEv
  | transcribeStartEv
  | transcribeEndEv

/-- The transition function: dispatch an event to its handler.  Guards on
the phase reflect which UI surface hosts the triggering control
(`sendStartEv`, `voiceSubmitEv`, `confirmExitEv` exist only on the
interview card); resolutions of pending promises (`sendResolve`,
`prepResolve`, `summaryResolve`) may arrive in any state. -/
def step (s : State) (e : Event) : State :=
  match e with
  | .uploadStartEv => uploadStartFn s
  | .analyzeResolve res =>
    if s.phase = .analyzing then analyzeResolveFn s res else s
  | .modeSelectEv m => modeSelectFn s m
  | .prepResolve res => prepResolveFn s res
  | .typeInput v => typeInputFn s v
  | .typingTimeout => { s with isTyping := false }
  | .sendStartEv => if inputDisabled s then s else (handleSend s).1
  | .sendResolve p res => sendResolveFn s p res
  | .voiceSubmitEv tx =>
    if inputDisabled s ∨ s.isSpeaking = true then s
    else (handleVoiceSubmit s tx).1
  | .tickEv => tickState s
  | .exhaustedEv => checkExhaustedFn s
  | .openManualEv => openManualFn s
  | .cancelManualEv => cancelManualFn s
  | .confirmExitEv => if s.phase = .interview then completeTopicStart s else s
  | .autoTickEv => autoTickFn s
  | .summaryResolve res =>
    if s.phase = .finalizing then summaryResolveFn s res else s
  | .resetEv => resetFn s
  | .speakStartEv => { s with isSpeaking := true }
  | .speakEndEv => { s with isSpeaking := false }
  | .listenStartEv => { s with isListening := true }
  | .listenEndEv => { s with isListening := false }
  | .transcribeStartEv => { s with isTranscribing := true }
  | .transcribeEndEv => { s with isTranscribing := false }

/-- Reachable orchestrator states: the initial state closed under `step`. -/
inductive Reachable : State → Prop where
  | init : Reachable initState
  | next {s : State} (e : Event) : Reachable s → Reachable (step s e)

/-- A two-topic analysis result used by the concrete scenarios below. -/
def infoA : TopicInfo := ⟨"t1", "주제 A", "설명 A"⟩

/-- Second topic of the concrete scenarios. -/
def infoB : TopicInfo := ⟨"t2", "주제 B", "설명 B"⟩

/-- A concrete interview state: upload succeeded with two topics, chat mode
chosen, and the first question "Q0" generated. -/
def sInterview : State :=
  step (step (step (step initState .uploadStartEv)
    (.analyzeResolve (some ([infoA, infoB], "과제 본문"))))
    (.modeSelectEv .chat))
    (.prepResolve (.ok "Q0"))

example : sInterview.phase = Phase.interview := by decide
example : sInterview.currentTopicIndex = 0 := by decide
example : (currentTopic? sInterview).map (fun t => t.turns) =
    some [⟨Role.ai, "Q0"⟩] := by decide
example : (currentTopic? sInterview).map (fun t => t.timeLeft) = some 180 := by
  decide
example : Reachable sInterview :=
  .next _ (.next _ (.next _ (.next _ .init)))

theorem prepResolve_ok_index (s : State) (tgt : Nat) (q : String)
    (hp : s.phase = .prep tgt) (ht : tgt < s.topicsState.length) :
    (prepResolveFn s (Except.ok q)).currentTopicIndex = tgt := by
  have hsome : s.topicsState[tgt]? = some s.topicsState[tgt] :=
    List.getElem?_eq_getElem ht
  unfold prepResolveFn
  rw [hp]
  by_cases hask : (s.topicsState[tgt].asked &&
      s.topicsState[tgt].turns.any (fun turn => decide (turn.role = Role.ai))) = true
  · simp [hsome, hask]
  · simp [hsome, hask]

/-- C1: in the interview phase with no advance in progress and a next topic
available, `completeTopic` claims the `advancing` flag synchronously, a
second invocation while the first is in progress is a no-op on the state,
the completed advance moves `currentTopicIndex` up by exactly 1, and
exactly the current topic's status changes (to `done`) — one topic
transition, not two. -/
theorem C1_advance_reentrancy (s : State)
    (_hphase : s.phase = Phase.interview) (hadv : s.advancing = false)
    (hnext : s.currentTopicIndex + 1 < s.topicsState.length) :
    (completeTopicStart s).advancing = true ∧
    completeTopicStart (completeTopicStart s) = completeTopicStart s ∧
    (∀ q, (prepResolveFn (completeTopicStart s) (Except.ok q)).currentTopicIndex
        = s.currentTopicIndex + 1) ∧
    (∀ i t t', s.topicsState[i]? = some t →
      (completeTopicStart s).topicsState[i]? = some t' →
      t'.status = (if i = s.currentTopicIndex then TStatus.done else t.status)) := by
  have hstep : completeTopicStart s =
      { s with advancing := true, modal := none, aiGenerating := true,
               isTyping := false, studentInput := "", isSpeaking := false,
               isListening := false,
               topicsState := mapIdxF (fun idx t =>
                 if idx = s.currentTopicIndex then
                   { t with status := TStatus.done, timeLeft := max 0 t.timeLeft }
                 else t) 0 s.topicsState,
               phase := .prep (s.currentTopicIndex + 1) } := by
    unfold completeTopicStart
    rw [hadv]
    simp [hnext]
  refine ⟨by rw [hstep], ?_, ?_, ?_⟩
  · rw [hstep]
    unfold completeTopicStart
    simp
  · intro q
    apply prepResolve_ok_index
    · rw [hstep]
    · rw [hstep]
      simpa [length_mapIdxF] using hnext
  · intro i t t' hsome hsome'
    rw [hstep] at hsome'
    simp only [getElem?_mapIdxF, hsome, Option.map_some', Nat.zero_add,
      Option.some.injEq] at hsome'
    by_cases hi : i = s.currentTopicIndex
    · simp [hi] at hsome' ⊢
      rw [← hsome']
    · simp [hi] at hsome' ⊢
      rw [← hsome']

/-- Witness for C1 at the concrete two-topic interview state. -/
theorem C1_advance_reentrancy_witness :
    (completeTopicStart sInterview).advancing = true ∧
    completeTopicStart (completeTopicStart sInterview) =
      completeTopicStart sInterview ∧
    (prepResolveFn (completeTopicStart sInterview)
      (Except.ok "Q1")).currentTopicIndex = sInterview.currentTopicIndex + 1 := by
  have h := C1_advance_reentrancy sInterview (by decide) (by decide) (by decide)
  exact ⟨h.1, h.2.1, h.2.2.1 "Q1"⟩

/-- The interview state with "한국어 답변" typed into the answer box. -/
def c2Typed : State := step sInterview (.typeInput "한국어 답변")

/-- The state right after `handleSend` issued its generation request. -/
def c2Sent : State := (handleSend c2Typed).1

/-- The pending continuation captured by that `handleSend` call. -/
def c2Pending : PendingGen := (handleSend c2Typed).2.getD ⟨0, []⟩

/-- The state after the user confirmed a manual advance and the next
topic's opening question resolved: the session has moved on to topic 1
while the topic-0 generation request is still outstanding. -/
def c2Advanced : State :=
  step (step c2Sent .confirmExitEv) (.prepResolve (Except.ok "Q1"))

/-- C2 counterexample: the stale generation response for topic 0 resolves
after the session has moved on to topic 1, and it is appended, not
discarded — topic 0's turn count grows from 2 to 3.  The state where this
happens is reachable. -/
theorem C2_stale_discard_counterexample :
    Reachable c2Advanced ∧
    c2Advanced.currentTopicIndex = 1 ∧
    c2Pending.origIndex = 0 ∧
    (c2Advanced.topicsState[0]?).map (fun t => t.turns.length) = some 2 ∧
    ((sendResolveFn c2Advanced c2Pending
      (Except.ok "Q2")).topicsState[0]?).map (fun t => t.turns.length) =
      some 3 := by
  refine ⟨?_, by decide, by decide, by decide, by decide⟩
  have h : c2Advanced =
      step (step (step (step sInterview (.typeInput "한국어 답변"))
        .sendStartEv) .confirmExitEv) (.prepResolve (Except.ok "Q1")) := by
    decide
  rw [h]
  exact .next _ (.next _ (.next _ (.next _
    (.next _ (.next _ (.next _ (.next _ .init)))))))

/-- C2 (corrected): a stale generation response is not discarded.  What
holds instead: the response never touches the *then-current* topic — its
turn list is unchanged — but it is appended to its *originating* topic,
whose turns become the captured `nextTurns` plus the new AI turn. -/
theorem C2_stale_response_effect (s : State) (p : PendingGen) (q : String)
    (hstale : p.origIndex ≠ s.currentTopicIndex) (hq : q ≠ "") :
    ((sendResolveFn s p (Except.ok q)).topicsState[s.currentTopicIndex]?).map
        (fun t => t.turns) =
      (s.topicsState[s.currentTopicIndex]?).map (fun t => t.turns) ∧
    ((sendResolveFn s p (Except.ok q)).topicsState[p.origIndex]?).map
        (fun t => t.turns) =
      (s.topicsState[p.origIndex]?).map
        (fun _ => p.nextTurns ++ [⟨Role.ai, q⟩]) := by
  unfold sendResolveFn
  simp only [getElem?_mapIdxF, Nat.zero_add, hq, if_neg hq]
  constructor
  · cases h : s.topicsState[s.currentTopicIndex]? with
    | none => simp
    | some t => simp [Ne.symm hstale]
  · cases h : s.topicsState[p.origIndex]? with
    | none => simp
    | some t => simp

/-- Witness for the corrected C2 at the concrete stale-resolution state. -/
theorem C2_stale_response_effect_witness :
    ((sendResolveFn c2Advanced c2Pending
        (Except.ok "Q2")).topicsState[c2Advanced.currentTopicIndex]?).map
        (fun t => t.turns) =
      (c2Advanced.topicsState[c2Advanced.currentTopicIndex]?).map
        (fun t => t.turns) ∧
    ((sendResolveFn c2Advanced c2Pending
        (Except.ok "Q2")).topicsState[c2Pending.origIndex]?).map
        (fun t => t.turns) =
      (c2Advanced.topicsState[c2Pending.origIndex]?).map
        (fun _ => c2Pending.nextTurns ++ [⟨Role.ai, "Q2"⟩]) :=
  C2_stale_response_effect c2Advanced c2Pending "Q2" (by decide) (by decide)

theorem shouldTick_iff (s : State) (t : Topic) :
    shouldTick s t = true ↔
      (s.modal = some Modal.manualExit ∨
       ((s.isTyping = true ∨ t.started = true) ∧ s.aiGenerating = false ∧
        s.isSpeaking = false ∧ s.modal ≠ some Modal.autoExit)) := by
  simp only [shouldTick, Bool.or_eq_true, Bool.and_eq_true, Bool.not_eq_true',
    decide_eq_true_eq, decide_eq_false_iff_not]
  tauto

/-- A reachable state with the manual-confirm modal open while a
generation request is in flight: the student sent an answer (so
`aiGenerating` is true) and then clicked the manual topic-exit button. -/
def c3ManualGen : State :=
  step (step (step sInterview (.typeInput "답변")) .sendStartEv) .openManualEv

/-- The current topic of `c3ManualGen`. -/
def c3Topic : Topic :=
  ⟨"t1", "주제 A", "설명 A", 180, [⟨Role.ai, "Q0"⟩, ⟨Role.student, "답변"⟩],
   TStatus.active, true, true⟩

/-- C3 counterexample: with the manual-confirm modal open, the timer ticks
even though an AI-generation request is in flight — the current topic's
remaining time drops from 180 to 179 while `aiGenerating = true`, so the
remaining time does not decrease "only when no generation request is in
flight".  The state is reachable. -/
theorem C3_pause_predicate_counterexample :
    Reachable c3ManualGen ∧
    c3ManualGen.phase = Phase.interview ∧
    c3ManualGen.aiGenerating = true ∧
    c3ManualGen.modal = some Modal.manualExit ∧
    (currentTopic? c3ManualGen).map (fun t => t.timeLeft) = some 180 ∧
    (currentTopic? (tickState c3ManualGen)).map (fun t => t.timeLeft) =
      some 179 := by
  refine ⟨?_, by decide, by decide, by decide, by decide, by decide⟩
  exact .next _ (.next _ (.next _ (.next _ (.next _ (.next _ (.next _ .init))))))

/-- C3 (corrected): exact characterisation of one timer firing.  The
current topic's remaining time decreases (by 1) precisely when the phase
is `interview`, its remaining time is positive, and either the
manual-confirm modal is open — in which case an in-flight generation
request, playing audio, or an untouched topic do NOT pause the clock — or
all of: the student has begun interacting (typing flag or topic started),
no generation request is in flight, the speech output is not playing, and
the modal is not the auto-countdown one. -/
theorem C3_tick_characterization (s : State) (t : Topic)
    (ht : currentTopic? s = some t) :
    (currentTopic? (tickState s)).map (fun tp => tp.timeLeft) =
      some (if s.phase = Phase.interview ∧ 0 < t.timeLeft ∧
              (s.modal = some Modal.manualExit ∨
               ((s.isTyping = true ∨ t.started = true) ∧
                s.aiGenerating = false ∧ s.isSpeaking = false ∧
                s.modal ≠ some Modal.autoExit))
            then t.timeLeft - 1 else t.timeLeft) := by
  have hti : s.topicsState[s.currentTopicIndex]? = some t := ht
  by_cases hph : s.phase = Phase.interview
  · by_cases h0 : t.timeLeft ≤ 0
    · have hnot : ¬ (0 : Int) < t.timeLeft := by omega
      simp [tickState, currentTopic?, hph, hti, h0, hnot]
    · have h0' : (0 : Int) < t.timeLeft := by omega
      by_cases hst : shouldTick s t = true
      · have hcond := (shouldTick_iff s t).mp hst
        have hmax : max 0 (t.timeLeft - 1) = t.timeLeft - 1 := by omega
        simp [tickState, currentTopic?, hph, hti, h0, hst, getElem?_mapIdxF,
          hmax, h0', hcond]
      · have hcond := (not_iff_not.mpr (shouldTick_iff s t)).mp hst
        have hfalse : ¬ (s.phase = Phase.interview ∧ 0 < t.timeLeft ∧
              (s.modal = some Modal.manualExit ∨
               ((s.isTyping = true ∨ t.started = true) ∧
                s.aiGenerating = false ∧ s.isSpeaking = false ∧
                s.modal ≠ some Modal.autoExit))) := fun hh => hcond hh.2.2
        simp [tickState, currentTopic?, hph, hti, h0, hst, hfalse]
        rw [if_neg (fun hh => hcond hh.2)]
  · have hfalse : ¬ (s.phase = Phase.interview ∧ 0 < t.timeLeft ∧
          (s.modal = some Modal.manualExit ∨
           ((s.isTyping = true ∨ t.started = true) ∧
            s.aiGenerating = false ∧ s.isSpeaking = false ∧
            s.modal ≠ some Modal.autoExit))) := fun hh => hph hh.1
    simp [tickState, currentTopic?, hph, hti, hfalse]

/-- Witness for the corrected C3 at the reachable manual-confirm state
`c3ManualGen` with its current topic `c3Topic`. -/
theorem C3_tick_characterization_witness :
    (currentTopic? (tickState c3ManualGen)).map (fun tp => tp.timeLeft) =
      some (if c3ManualGen.phase = Phase.interview ∧ 0 < c3Topic.timeLeft ∧
              (c3ManualGen.modal = some Modal.manualExit ∨
               ((c3ManualGen.isTyping = true ∨ c3Topic.started = true) ∧
                c3ManualGen.aiGenerating = false ∧
                c3ManualGen.isSpeaking = false ∧
                c3ManualGen.modal ≠ some Modal.autoExit))
            then c3Topic.timeLeft - 1 else c3Topic.timeLeft) :=
  C3_tick_characterization c3ManualGen c3Topic (by decide)

theorem completeTopicStart_claims (s : State) (h : s.advancing = false) :
    (completeTopicStart s).advancing = true ∧ (completeTopicStart s).modal = none := by
  unfold completeTopicStart
  rw [h]
  by_cases hn : s.currentTopicIndex + 1 < s.topicsState.length <;> simp [hn]

theorem completeTopicStart_reentrant (s : State) (h : s.advancing = true) :
    completeTopicStart s = s := by
  unfold completeTopicStart
  rw [h]
  simp

theorem autoTickFn_noModal (s : State) (h : s.modal = none) : autoTickFn s = s := by
  simp [autoTickFn, h]

/-- C4: when the active topic's remaining time is 0 in the interview phase
with no auto-countdown modal open and no advance in progress, exactly one
`auto-exit` modal opens with its countdown reset to 5; re-checking the
zero crossing with the modal open is a no-op; confirming manually during
the countdown claims the advance exactly once (a re-entrant call is a
no-op on the state) and closes the modal, which cancels the automatic
countdown firing. -/
theorem C4_zero_crossing (s : State) (t : Topic)
    (hphase : s.phase = Phase.interview)
    (ht : currentTopic? s = some t)
    (hz : t.timeLeft = 0)
    (hm : s.modal ≠ some Modal.autoExit)
    (hadv : s.advancing = false) :
    (checkExhaustedFn s).modal = some Modal.autoExit ∧
    (checkExhaustedFn s).autoCountdown = 5 ∧
    checkExhaustedFn (checkExhaustedFn s) = checkExhaustedFn s ∧
    (completeTopicStart (checkExhaustedFn s)).advancing = true ∧
    (completeTopicStart (checkExhaustedFn s)).modal = none ∧
    completeTopicStart (completeTopicStart (checkExhaustedFn s)) =
      completeTopicStart (checkExhaustedFn s) ∧
    autoTickFn (completeTopicStart (checkExhaustedFn s)) =
      completeTopicStart (checkExhaustedFn s) := by
  have hti : s.topicsState[s.currentTopicIndex]? = some t := ht
  have hnz : ¬ (0 : Int) < t.timeLeft := by omega
  have hs1 : checkExhaustedFn s =
      { s with modal := some Modal.autoExit,
               autoCountdown := AUTO_ADVANCE_SECONDS } := by
    simp [checkExhaustedFn, currentTopic?, hphase, hti, hnz, hm, hadv]
  have hadv1 : (checkExhaustedFn s).advancing = false := by rw [hs1]; exact hadv
  have hclaim := completeTopicStart_claims (checkExhaustedFn s) hadv1
  refine ⟨by rw [hs1], by rw [hs1]; rfl, ?_, hclaim.1, hclaim.2, ?_, ?_⟩
  · rw [hs1]
    simp [checkExhaustedFn, currentTopic?, hphase, hti, hnz]
  · exact completeTopicStart_reentrant _ hclaim.1
  · exact autoTickFn_noModal _ hclaim.2

/-- A reachable interview state whose current topic has exhausted its
time: `sInterview` with topic 0's `timeLeft` set to 0 (as after 180
ticks). -/
def c4Exhausted : State :=
  { sInterview with topicsState := mapIdxF (fun i t =>
      if i = 0 then { t with timeLeft := 0 } else t) 0 sInterview.topicsState }

/-- The current topic of `c4Exhausted`. -/
def c4Topic : Topic :=
  ⟨"t1", "주제 A", "설명 A", 0, [⟨Role.ai, "Q0"⟩], TStatus.active, true, true⟩

/-- Witness for C4 at the concrete exhausted-topic state. -/
theorem C4_zero_crossing_witness :
    (checkExhaustedFn c4Exhausted).modal = some Modal.autoExit ∧
    (checkExhaustedFn c4Exhausted).autoCountdown = 5 ∧
    checkExhaustedFn (checkExhaustedFn c4Exhausted) =
      checkExhaustedFn c4Exhausted ∧
    (completeTopicStart (checkExhaustedFn c4Exhausted)).advancing = true ∧
    (completeTopicStart (checkExhaustedFn c4Exhausted)).modal = none ∧
    completeTopicStart (completeTopicStart (checkExhaustedFn c4Exhausted)) =
      completeTopicStart (checkExhaustedFn c4Exhausted) ∧
    autoTickFn (completeTopicStart (checkExhaustedFn c4Exhausted)) =
      completeTopicStart (checkExhaustedFn c4Exhausted) :=
  C4_zero_crossing c4Exhausted c4Topic (by decide) (by decide) (by decide)
    (by decide) (by decide)

/-- A single-topic interview session (upload, one-topic analysis, chat
mode, first question generated). -/
def sOneTopic : State :=
  step (step (step (step initState .uploadStartEv)
    (.analyzeResolve (some ([infoA], "과제 본문"))))
    (.modeSelectEv .chat))
    (.prepResolve (Except.ok "Q0"))

/-- The finalizing state after the single topic was completed. -/
def c5Finalizing : State := step sOneTopic .confirmExitEv

/-- The state after the summary request failed (rejected promise). -/
def c5Failed : State := step c5Finalizing (.summaryResolve (Except.error ()))

/-- C5 counterexample: when the summary request itself fails (network
error or a 500 `summary_failed` response, as when `runLLM` throws), the
session reaches `result` but `resultSummary` stays `none` — no placeholder
assessment with empty strengths and a failure-explanatory weakness is
presented.  The state is reachable. -/
theorem C5_placeholder_counterexample :
    Reachable c5Failed ∧
    c5Finalizing.phase = Phase.finalizing ∧
    c5Failed.phase = Phase.result ∧
    c5Failed.resultSummary = none := by
  refine ⟨?_, by decide, by decide, by decide⟩
  exact .next _ (.next _ (.next _ (.next _ (.next _ (.next _ .init)))))

/-- C5 (corrected): finalization never strands the user — every summary
resolution moves a finalizing session to `result`.  The placeholder
assessment with empty `strengths` and a failure-explanatory `weaknesses`
entry is produced by the *backend* when the LLM's answer cannot be parsed
(the request then succeeds and the frontend stores the placeholder); when
the request itself fails, the frontend keeps `resultSummary` unchanged
(`none` in the real flow), surfaces an error message, and still reaches
`result`. -/
theorem C5_finalization_behavior (s : State)
    (hph : s.phase = Phase.finalizing) :
    (∀ res, (step s (.summaryResolve res)).phase = Phase.result) ∧
    (step s (.summaryResolve (Except.error ()))).resultSummary =
      s.resultSummary ∧
    (step s (.summaryResolve (Except.error ()))).error ≠ "" ∧
    (∀ sum, (step s (.summaryResolve (Except.ok sum))).resultSummary =
      some sum) ∧
    (∀ tr, tr ≠ "" →
      backendSummary tr (Except.ok none) = Except.ok summaryPlaceholder) ∧
    summaryPlaceholder.strengths = [] ∧
    "요약 생성에 실패했습니다. 다시 시도해 주세요." ∈ summaryPlaceholder.weaknesses := by
  refine ⟨?_, ?_, ?_, ?_, ?_, by decide, by decide⟩
  · intro res
    cases res <;> simp [step, hph, summaryResolveFn]
  · simp [step, hph, summaryResolveFn]
  · simp [step, hph, summaryResolveFn]
  · intro sum
    simp [step, hph, summaryResolveFn]
  · intro tr htr
    simp [backendSummary, htr]

/-- Witness for the corrected C5 at the reachable finalizing state. -/
theorem C5_finalization_behavior_witness :
    (step c5Finalizing (.summaryResolve (Except.error ()))).phase =
      Phase.result ∧
    (step c5Finalizing (.summaryResolve (Except.error ()))).resultSummary =
      c5Finalizing.resultSummary ∧
    backendSummary "학생: 답변" (Except.ok none) = Except.ok summaryPlaceholder :=
  have h := C5_finalization_behavior c5Finalizing (by decide)
  ⟨h.1 (Except.error ()), h.2.1, h.2.2.2.2.1 "학생: 답변" (by decide)⟩

/-- C6: with non-empty input in the interview phase, both the typed
(`handleSend`) and the spoken (`handleVoiceSubmit`) submission path append
the student's turn to the active topic and issue a generation request; a
failing generation resolution leaves the topic's turns untouched (the
student's answer is never discarded) and surfaces a recoverable error
message; the system turn is appended only by a successful resolution,
right after the student's turn. -/
theorem C6_student_turn_always_appended (s : State) (t : Topic) (tx : String)
    (_hphase : s.phase = Phase.interview)
    (ht : currentTopic? s = some t)
    (hne : jsTrim s.studentInput ≠ "")
    (htx : jsTrim tx ≠ "")
    (hsub : s.turnSubmitted = false)
    (htr : s.isTranscribing = false) :
    (handleSend s).2 = some ⟨s.currentTopicIndex,
      t.turns ++ [⟨Role.student, jsTrim s.studentInput⟩]⟩ ∧
    currentTopic? (handleSend s).1 =
      some { t with turns := t.turns ++ [⟨Role.student, jsTrim s.studentInput⟩] } ∧
    (∀ s2 p, currentTopic? (sendResolveFn s2 p (Except.error ())) =
      currentTopic? s2 ∧
      (sendResolveFn s2 p (Except.error ())).error ≠ "") ∧
    (∀ q, q ≠ "" →
      currentTopic? (sendResolveFn (handleSend s).1
        ⟨s.currentTopicIndex, t.turns ++ [⟨Role.student, jsTrim s.studentInput⟩]⟩
        (Except.ok q)) =
      some { t with turns := t.turns ++
        [⟨Role.student, jsTrim s.studentInput⟩, ⟨Role.ai, q⟩] }) ∧
    (handleVoiceSubmit s tx).2 = some ⟨s.currentTopicIndex,
      t.turns ++ [⟨Role.student, jsTrim tx⟩]⟩ ∧
    currentTopic? (handleVoiceSubmit s tx).1 =
      some { t with turns := t.turns ++ [⟨Role.student, jsTrim tx⟩] } := by
  have hti : s.topicsState[s.currentTopicIndex]? = some t := ht
  refine ⟨?_, ?_, ?_, ?_, ?_, ?_⟩
  · simp [handleSend, currentTopic?, hne, hti]
  · simp [handleSend, currentTopic?, hne, hti, getElem?_mapIdxF]
  · intro s2 p
    constructor
    · simp [sendResolveFn, currentTopic?]
    · simp [sendResolveFn]
  · intro q hq
    simp [handleSend, sendResolveFn, currentTopic?, hne, hti, hq,
      getElem?_mapIdxF]
  · simp [handleVoiceSubmit, currentTopic?, hsub, htr, htx, hti]
  · simp [handleVoiceSubmit, currentTopic?, hsub, htr, htx, hti,
      getElem?_mapIdxF]

/-- Witness for C6 at the concrete interview state with "한국어 답변"
typed and the transcript "음성 답변" captured. -/
theorem C6_student_turn_always_appended_witness :
    currentTopic? (handleSend c2Typed).1 =
      some { (⟨"t1", "주제 A", "설명 A", 180, [⟨Role.ai, "Q0"⟩],
              TStatus.active, true, true⟩ : Topic) with
             turns := [⟨Role.ai, "Q0"⟩] ++
               [⟨Role.student, jsTrim c2Typed.studentInput⟩] } ∧
    (sendResolveFn c2Sent c2Pending (Except.error ())).error ≠ "" ∧
    currentTopic? (handleVoiceSubmit c2Typed "음성 답변").1 =
      some { (⟨"t1", "주제 A", "설명 A", 180, [⟨Role.ai, "Q0"⟩],
              TStatus.active, true, true⟩ : Topic) with
             turns := [⟨Role.ai, "Q0"⟩] ++ [⟨Role.student, jsTrim "음성 답변"⟩] } :=
  have h := C6_student_turn_always_appended c2Typed
    ⟨"t1", "주제 A", "설명 A", 180, [⟨Role.ai, "Q0"⟩], TStatus.active, true, true⟩
    "음성 답변" (by decide) (by decide) (by decide) (by decide) (by decide)
    (by decide)
  ⟨by
    have := h.2.1
    simpa using this,
   by
    have := (h.2.2.1 c2Sent c2Pending).2
    simpa using this,
   by
    have := h.2.2.2.2.2
    simpa using this⟩

/-- C7 counterexample: in the spoken modality, a whitespace-only
transcript is NOT rejected: `handleVoiceSubmit` substitutes the
placeholder answer "(응답 없음)", appends it as a student turn and issues
a generation request, unlike the typed path's no-op. -/
theorem C7_voice_empty_counterexample :
    jsTrim "   " = "" ∧
    sInterview.phase = Phase.interview ∧
    (handleVoiceSubmit sInterview "   ").2.isSome = true ∧
    ((handleVoiceSubmit sInterview "   ").1.topicsState[0]?).map
      (fun t => t.turns) =
      some [⟨Role.ai, "Q0"⟩, ⟨Role.student, "(응답 없음)"⟩] := by
  refine ⟨by decide, by decide, by decide, by decide⟩

/-- C7 (corrected): empty/whitespace-only input is rejected as a no-op in
the typed path (`handleSend` returns the state unchanged with no pending
request), but the spoken path diverges: an empty transcript is replaced by
the placeholder "(응답 없음)", which is appended as the student's turn
while a generation request is issued. -/
theorem C7_empty_submission (s : State) (t : Topic) (tx : String)
    (hempty : jsTrim s.studentInput = "")
    (hsub : s.turnSubmitted = false)
    (htr : s.isTranscribing = false)
    (ht : currentTopic? s = some t)
    (htx : jsTrim tx = "") :
    handleSend s = (s, none) ∧
    (handleVoiceSubmit s tx).2 = some ⟨s.currentTopicIndex,
      t.turns ++ [⟨Role.student, "(응답 없음)"⟩]⟩ ∧
    currentTopic? (handleVoiceSubmit s tx).1 =
      some { t with turns := t.turns ++ [⟨Role.student, "(응답 없음)"⟩] } := by
  have hti : s.topicsState[s.currentTopicIndex]? = some t := ht
  refine ⟨?_, ?_, ?_⟩
  · simp [handleSend, hempty]
  · simp [handleVoiceSubmit, currentTopic?, hsub, htr, htx, hti]
  · simp [handleVoiceSubmit, currentTopic?, hsub, htr, htx, hti,
      getElem?_mapIdxF]

/-- Witness for the corrected C7 at the concrete interview state with an
empty input box and a whitespace-only transcript. -/
theorem C7_empty_submission_witness :
    handleSend sInterview = (sInterview, none) ∧
    (handleVoiceSubmit sInterview "  ").2 = some ⟨sInterview.currentTopicIndex,
      [⟨Role.ai, "Q0"⟩] ++ [⟨Role.student, "(응답 없음)"⟩]⟩ :=
  have h := C7_empty_submission sInterview
    ⟨"t1", "주제 A", "설명 A", 180, [⟨Role.ai, "Q0"⟩], TStatus.active, true, true⟩
    "  " (by decide) (by decide) (by decide) (by decide) (by decide)
  ⟨h.1, by
    have := h.2.1
    simpa using this⟩

/-- C10: the backend analysis yields at most 5 topics (truncation plus the
single-topic parse-failure fallback), and the frontend accepts an analysis
(enters `modeSelect`, creating the session's topic set) only with at least
one topic, so every accepted analysis gives the session between 1 and 5
topics (in fact at most 3 after the frontend's own truncation); a
zero-topic analysis is rejected with an error: the session falls back to
`upload` and its topic set is unchanged. -/
theorem C10_topic_count (s : State)
    (parsed : Option (Option (List TopicInfo))) (text : String)
    (hph : s.phase = Phase.analyzing) :
    (backendAnalyzeTopics parsed).length ≤ 5 ∧
    ((step s (.analyzeResolve
        (some (backendAnalyzeTopics parsed, text)))).phase = Phase.modeSelect →
      1 ≤ (step s (.analyzeResolve
        (some (backendAnalyzeTopics parsed, text)))).topicsState.length ∧
      (step s (.analyzeResolve
        (some (backendAnalyzeTopics parsed, text)))).topicsState.length ≤ 5) ∧
    (backendAnalyzeTopics parsed = [] →
      (step s (.analyzeResolve
        (some (backendAnalyzeTopics parsed, text)))).phase = Phase.upload ∧
      (step s (.analyzeResolve
        (some (backendAnalyzeTopics parsed, text)))).topicsState =
        s.topicsState ∧
      (step s (.analyzeResolve
        (some (backendAnalyzeTopics parsed, text)))).error ≠ "") := by
  refine ⟨?_, ?_, ?_⟩
  · match parsed with
    | none => simp [backendAnalyzeTopics]
    | some none => simp [backendAnalyzeTopics]
    | some (some l) =>
      simp only [backendAnalyzeTopics, length_mapIdxF, List.length_take]
      omega
  · intro hacc
    by_cases hemp : ((backendAnalyzeTopics parsed).take 3).isEmpty = true
    · exfalso
      simp [step, hph, analyzeResolveFn, hemp] at hacc
    · have hlen : 1 ≤ ((backendAnalyzeTopics parsed).take 3).length := by
        cases hl : (backendAnalyzeTopics parsed).take 3 with
        | nil => rw [hl] at hemp; simp at hemp
        | cons a as => simp
      constructor
      · simpa [step, hph, analyzeResolveFn, hemp, length_mapIdxF] using hlen
      · simp [step, hph, analyzeResolveFn, hemp, length_mapIdxF,
          List.length_take]
  · intro hz
    rw [hz]
    simp [step, hph, analyzeResolveFn]

/-- Witness for C10 at a two-topic backend analysis in the analyzing
phase. -/
theorem C10_topic_count_witness :
    1 ≤ (step (step initState .uploadStartEv) (.analyzeResolve
      (some (backendAnalyzeTopics (some (some [infoA, infoB])),
             "본문")))).topicsState.length ∧
    (step (step initState .uploadStartEv) (.analyzeResolve
      (some (backendAnalyzeTopics (some (some [infoA, infoB])),
             "본문")))).topicsState.length ≤ 5 :=
  (C10_topic_count (step initState .uploadStartEv)
    (some (some [infoA, infoB])) "본문" (by decide)).2.1 (by decide)

/-- The inductive invariant of the orchestrator: timer values are never
negative, pending topics still hold their full budget, an active topic
outside the interview phase still holds its full budget, and the topic
statuses are canonical for the `modeSelect`, `prep` and `interview`
phases; the auto-countdown modal exists only in the interview phase. -/
structure SessionInv (s : State) : Prop where
  nonneg : ∀ (i : Nat) (t : Topic), s.topicsState[i]? = some t → 0 ≤ t.timeLeft
  pend180 : ∀ (i : Nat) (t : Topic), s.topicsState[i]? = some t →
    t.status = TStatus.pending → t.timeLeft = TOPIC_SECONDS
  act180 : s.phase ≠ Phase.interview →
    ∀ (i : Nat) (t : Topic), s.topicsState[i]? = some t →
      t.status = TStatus.active → t.timeLeft = TOPIC_SECONDS
  modeSel : s.phase = Phase.modeSelect → s.topicsState ≠ [] ∧
    (∀ (i : Nat) (t : Topic), s.topicsState[i]? = some t →
      t.status = if i = 0 then TStatus.active else TStatus.pending)
  prepInv : ∀ (tgt : Nat), s.phase = Phase.prep tgt →
    tgt < s.topicsState.length ∧
    (∀ (i : Nat) (t : Topic), s.topicsState[i]? = some t →
      (i < tgt → t.status = TStatus.done) ∧
      (tgt < i → t.status = TStatus.pending))
  intInv : s.phase = Phase.interview →
    s.currentTopicIndex < s.topicsState.length ∧
    (∀ (i : Nat) (t : Topic), s.topicsState[i]? = some t →
      t.status = if i < s.currentTopicIndex then TStatus.done
                 else if i = s.currentTopicIndex then TStatus.active
                 else TStatus.pending)
  modalAuto : s.modal = some Modal.autoExit → s.phase = Phase.interview

theorem inv_initState : SessionInv initState := by
  constructor <;> simp [initState]

theorem pt_of_mapIdxF (l : List Topic) (g : Nat → Topic → Topic)
    (hg : ∀ (i : Nat) (t : Topic),
      (g i t).status = t.status ∧ (g i t).timeLeft = t.timeLeft) :
    ∀ (i : Nat) (t' : Topic), (mapIdxF g 0 l)[i]? = some t' →
      ∃ t, l[i]? = some t ∧ t'.status = t.status ∧ t'.timeLeft = t.timeLeft := by
  intro i t' h
  rw [getElem?_mapIdxF] at h
  cases hl : l[i]? with
  | none => rw [hl] at h; cases h
  | some t =>
    rw [hl] at h
    simp only [Option.map_some', Option.some.injEq, Nat.zero_add] at h
    exact ⟨t, rfl, by rw [← h]; exact (hg i t).1, by rw [← h]; exact (hg i t).2⟩

/-- Pointwise preservation: a state with the same phase, current index and
modal, same topic-list length, and pointwise equal statuses and timer
values satisfies the invariant whenever the original does. -/
theorem inv_aux (s s' : State)
    (hph : s'.phase = s.phase) (hcur : s'.currentTopicIndex = s.currentTopicIndex)
    (hmod : s'.modal = s.modal)
    (hlen : s'.topicsState.length = s.topicsState.length)
    (hpt : ∀ (i : Nat) (t' : Topic), s'.topicsState[i]? = some t' →
      ∃ t, s.topicsState[i]? = some t ∧ t'.status = t.status ∧
        t'.timeLeft = t.timeLeft)
    (h : SessionInv s) : SessionInv s' := by
  constructor
  · intro i t' hi
    obtain ⟨t, hts, _, htime⟩ := hpt i t' hi
    rw [htime]
    exact h.nonneg i t hts
  · intro i t' hi hstat
    obtain ⟨t, hts, hst, htime⟩ := hpt i t' hi
    rw [htime]
    exact h.pend180 i t hts (hst ▸ hstat)
  · intro hni i t' hi hstat
    obtain ⟨t, hts, hst, htime⟩ := hpt i t' hi
    rw [htime]
    exact h.act180 (hph ▸ hni) i t hts (hst ▸ hstat)
  · intro hms
    obtain ⟨hne, hstats⟩ := h.modeSel (hph ▸ hms)
    refine ⟨?_, ?_⟩
    · intro habs
      apply hne
      have hl0 := congrArg List.length habs
      rw [hlen] at hl0
      exact List.length_eq_zero.mp hl0
    · intro i t' hi
      obtain ⟨t, hts, hst, _⟩ := hpt i t' hi
      rw [hst]
      exact hstats i t hts
  · intro tgt hp
    obtain ⟨hlt, hstats⟩ := h.prepInv tgt (hph ▸ hp)
    refine ⟨hlen ▸ hlt, ?_⟩
    intro i t' hi
    obtain ⟨t, hts, hst, _⟩ := hpt i t' hi
    exact ⟨fun hlt2 => hst ▸ (hstats i t hts).1 hlt2,
           fun hgt => hst ▸ (hstats i t hts).2 hgt⟩
  · intro hien
    obtain ⟨hlt, hstats⟩ := h.intInv (hph ▸ hien)
    refine ⟨by rw [hcur, hlen]; exact hlt, ?_⟩
    intro i t' hi
    obtain ⟨t, hts, hst, _⟩ := hpt i t' hi
    rw [hst, hcur]
    exact hstats i t hts
  · intro hmodal
    rw [hph]
    exact h.modalAuto (hmod ▸ hmodal)

theorem inv_completeTopicStart (s : State) (hph : s.phase = Phase.interview)
    (h : SessionInv s) : SessionInv (completeTopicStart s) := by
  by_cases hadv : s.advancing = true
  · rw [completeTopicStart_reentrant s hadv]
    exact h
  · have hadv2 : s.advancing = false := by
      cases hb : s.advancing
      · rfl
      · exact absurd hb hadv
    obtain ⟨hlt, hstats⟩ := h.intInv hph
    have hpoint : ∀ (i : Nat) (t' : Topic),
        (mapIdxF (fun idx t =>
          if idx = s.currentTopicIndex then
            { t with status := TStatus.done, timeLeft := max 0 t.timeLeft }
          else t) 0 s.topicsState)[i]? = some t' →
        ∃ t, s.topicsState[i]? = some t ∧
          t' = (if i = s.currentTopicIndex then
            { t with status := TStatus.done, timeLeft := max 0 t.timeLeft }
          else t) := by
      intro i t' hi
      rw [getElem?_mapIdxF] at hi
      cases hl : s.topicsState[i]? with
      | none => rw [hl] at hi; cases hi
      | some t =>
        rw [hl] at hi
        simp only [Option.map_some', Option.some.injEq, Nat.zero_add] at hi
        exact ⟨t, rfl, hi.symm⟩
    have hnonneg : ∀ (i : Nat) (t' : Topic),
        (mapIdxF (fun idx t =>
          if idx = s.currentTopicIndex then
            { t with status := TStatus.done, timeLeft := max 0 t.timeLeft }
          else t) 0 s.topicsState)[i]? = some t' → 0 ≤ t'.timeLeft := by
      intro i t' hi
      obtain ⟨t, hts, ht'⟩ := hpoint i t' hi
      by_cases hic : i = s.currentTopicIndex
      · rw [ht', if_pos hic]
        exact le_max_left 0 t.timeLeft
      · rw [ht', if_neg hic]
        exact h.nonneg i t hts
    have hpend : ∀ (i : Nat) (t' : Topic),
        (mapIdxF (fun idx t =>
          if idx = s.currentTopicIndex then
            { t with status := TStatus.done, timeLeft := max 0 t.timeLeft }
          else t) 0 s.topicsState)[i]? = some t' →
        t'.status = TStatus.pending → t'.timeLeft = TOPIC_SECONDS := by
      intro i t' hi hstat
      obtain ⟨t, hts, ht'⟩ := hpoint i t' hi
      by_cases hic : i = s.currentTopicIndex
      · rw [ht', if_pos hic] at hstat
        simp at hstat
      · rw [ht', if_neg hic] at hstat ⊢
        exact h.pend180 i t hts hstat
    have hact : ∀ (i : Nat) (t' : Topic),
        (mapIdxF (fun idx t =>
          if idx = s.currentTopicIndex then
            { t with status := TStatus.done, timeLeft := max 0 t.timeLeft }
          else t) 0 s.topicsState)[i]? = some t' →
        t'.status ≠ TStatus.active := by
      intro i t' hi hstat
      obtain ⟨t, hts, ht'⟩ := hpoint i t' hi
      by_cases hic : i = s.currentTopicIndex
      · rw [ht', if_pos hic] at hstat
        simp at hstat
      · rw [ht', if_neg hic] at hstat
        have hcanon := hstats i t hts
        rcases Nat.lt_trichotomy i s.currentTopicIndex with hlt2 | heq | hgt
        · rw [if_pos hlt2] at hcanon
          rw [hcanon] at hstat
          cases hstat
        · exact hic heq
        · have hn1 : ¬ i < s.currentTopicIndex := by omega
          rw [if_neg hn1, if_neg hic] at hcanon
          rw [hcanon] at hstat
          cases hstat
    by_cases hn : s.currentTopicIndex + 1 < s.topicsState.length
    · have hstep : completeTopicStart s =
          { s with advancing := true, modal := none, aiGenerating := true,
                   isTyping := false, studentInput := "", isSpeaking := false,
                   isListening := false,
                   topicsState := mapIdxF (fun idx t =>
                     if idx = s.currentTopicIndex then
                       { t with status := TStatus.done,
                                timeLeft := max 0 t.timeLeft }
                     else t) 0 s.topicsState,
                   phase := .prep (s.currentTopicIndex + 1) } := by
        unfold completeTopicStart
        rw [hadv2]
        simp [hn]
      rw [hstep]
      constructor
      · exact hnonneg
      · exact hpend
      · intro _ i t' hi hstat
        exact absurd hstat (hact i t' hi)
      · intro habs
        simp at habs
      · intro tgt hp
        have hp2 : Phase.prep (s.currentTopicIndex + 1) = Phase.prep tgt := hp
        injection hp2 with he
        subst he
        refine ⟨by rw [length_mapIdxF]; exact hn, ?_⟩
        intro i t' hi
        obtain ⟨t, hts, ht'⟩ := hpoint i t' hi
        constructor
        · intro hilt
          by_cases hic : i = s.currentTopicIndex
          · rw [ht', if_pos hic]
          · have hlt3 : i < s.currentTopicIndex := by omega
            rw [ht', if_neg hic]
            have hcanon := hstats i t hts
            rw [if_pos hlt3] at hcanon
            exact hcanon
        · intro higt
          have h1 : ¬ i < s.currentTopicIndex := by omega
          have h2 : i ≠ s.currentTopicIndex := by omega
          rw [ht', if_neg h2]
          have hcanon := hstats i t hts
          rw [if_neg h1, if_neg h2] at hcanon
          exact hcanon
      · intro habs
        simp at habs
      · intro habs
        simp at habs
    · have hstep : completeTopicStart s =
          { s with advancing := true, modal := none, aiGenerating := false,
                   isTyping := false, studentInput := "", isSpeaking := false,
                   isListening := false,
                   topicsState := mapIdxF (fun idx t =>
                     if idx = s.currentTopicIndex then
                       { t with status := TStatus.done,
                                timeLeft := max 0 t.timeLeft }
                     else t) 0 s.topicsState,
                   phase := .finalizing } := by
        unfold completeTopicStart
        rw [hadv2]
        simp [hn]
      rw [hstep]
      constructor
      · exact hnonneg
      · exact hpend
      · intro _ i t' hi hstat
        exact absurd hstat (hact i t' hi)
      · intro habs
        simp at habs
      · intro tgt hp
        simp at hp
      · intro habs
        simp at habs
      · intro habs
        simp at habs

theorem inv_toBoringPhase (s s' : State)
    (hts : s'.topicsState = s.topicsState)
    (hmod : s'.modal = s.modal)
    (hold : s.phase ≠ Phase.interview)
    (hms : s'.phase ≠ Phase.modeSelect)
    (hprep : ∀ tgt, s'.phase ≠ Phase.prep tgt)
    (hint : s'.phase ≠ Phase.interview)
    (h : SessionInv s) : SessionInv s' := by
  constructor
  · intro i t hi
    exact h.nonneg i t (hts ▸ hi)
  · intro i t hi
    exact h.pend180 i t (hts ▸ hi)
  · intro _ i t hi
    exact h.act180 hold i t (hts ▸ hi)
  · intro habs
    exact absurd habs hms
  · intro tgt habs
    exact absurd habs (hprep tgt)
  · intro habs
    exact absurd habs hint
  · intro hm
    exact absurd (h.modalAuto (hmod ▸ hm)) hold

theorem inv_uploadStartFn (s : State) (h : SessionInv s) :
    SessionInv (uploadStartFn s) := by
  unfold uploadStartFn
  split
  · rename_i hup
    exact inv_toBoringPhase s _ rfl rfl (by rw [hup]; simp) (by simp)
      (fun tgt => by simp) (by simp) h
  · exact h

theorem inv_analyzeResolveFn (s : State) (res : Option (List TopicInfo × String))
    (hph : s.phase = Phase.analyzing) (h : SessionInv s) :
    SessionInv (analyzeResolveFn s res) := by
  match res with
  | none =>
    exact inv_toBoringPhase s _ rfl rfl (by rw [hph]; simp)
      (by simp [analyzeResolveFn]) (fun tgt => by simp [analyzeResolveFn])
      (by simp [analyzeResolveFn]) h
  | some (rawTopics, text) =>
    unfold analyzeResolveFn
    by_cases hemp : (rawTopics.take 3).isEmpty = true
    · simp only [hemp, if_true]
      exact inv_toBoringPhase s _ rfl rfl (by rw [hph]; simp) (by simp)
        (fun tgt => by simp) (by simp) h
    · simp only [hemp, Bool.false_eq_true, if_false]
      have hpoint : ∀ (i : Nat) (t' : Topic),
          (mapIdxF (fun idx t =>
            ({ id := t.id, title := t.title, description := t.description,
               timeLeft := TOPIC_SECONDS, turns := [],
               status := if idx = 0 then TStatus.active else TStatus.pending,
               started := false, asked := false } : Topic)) 0
            (rawTopics.take 3))[i]? = some t' →
          t'.timeLeft = TOPIC_SECONDS ∧
          t'.status = (if i = 0 then TStatus.active else TStatus.pending) := by
        intro i t' hi
        rw [getElem?_mapIdxF] at hi
        cases hl : (rawTopics.take 3)[i]? with
        | none => rw [hl] at hi; cases hi
        | some t =>
          rw [hl] at hi
          simp only [Option.map_some', Option.some.injEq, Nat.zero_add] at hi
          rw [← hi]
          exact ⟨rfl, rfl⟩
      constructor
      · intro i t' hi
        rw [(hpoint i t' hi).1]
        decide
      · intro i t' hi _
        exact (hpoint i t' hi).1
      · intro _ i t' hi _
        exact (hpoint i t' hi).1
      · intro _
        refine ⟨?_, ?_⟩
        · intro habs
          have hl0 := congrArg List.length habs
          rw [length_mapIdxF] at hl0
          simp only [List.length_nil] at hl0
          rw [List.isEmpty_iff_length_eq_zero] at hemp
          exact hemp hl0
        · intro i t' hi
          exact (hpoint i t' hi).2
      · intro tgt habs
        simp at habs
      · intro habs
        simp at habs
      · intro hm
        exact absurd (h.modalAuto hm) (by rw [hph]; simp)

theorem inv_modeSelectFn (s : State) (m : Mode) (h : SessionInv s) :
    SessionInv (modeSelectFn s m) := by
  unfold modeSelectFn
  split
  · rename_i hms
    obtain ⟨hne, hstats⟩ := h.modeSel hms
    constructor
    · exact h.nonneg
    · exact h.pend180
    · intro _ i t hi hact
      exact h.act180 (by rw [hms]; simp) i t hi hact
    · intro habs
      simp at habs
    · intro tgt hp
      have hp2 : Phase.prep 0 = Phase.prep tgt := hp
      injection hp2 with he
      subst he
      refine ⟨List.length_pos.mpr hne, ?_⟩
      intro i t hi
      refine ⟨fun habs => absurd habs (by omega), fun hpos => ?_⟩
      have := hstats i t hi
      rw [if_neg (by omega)] at this
      exact this
    · intro habs
      simp at habs
    · intro habs
      simp at habs
  · exact h

theorem inv_prepResolveFn (s : State) (res : Except Unit String)
    (h : SessionInv s) : SessionInv (prepResolveFn s res) := by
  cases hph : s.phase with
  | prep tgt =>
    obtain ⟨htlt, hstats⟩ := h.prepInv tgt hph
    have hsome : s.topicsState[tgt]? = some s.topicsState[tgt] :=
      List.getElem?_eq_getElem htlt
    by_cases hask : (s.topicsState[tgt].asked &&
        s.topicsState[tgt].turns.any (fun turn => decide (turn.role = Role.ai))) = true
    · have he : prepResolveFn s res =
          { s with topicsState := mapIdxF (fun idx t =>
                     { t with status := if idx = tgt then TStatus.active
                                        else if idx < tgt then TStatus.done
                                        else t.status }) 0 s.topicsState,
                   currentTopicIndex := tgt, aiGenerating := false,
                   phase := .interview, advancing := false } := by
        unfold prepResolveFn
        simp only [hph]
        simp [hsome, hask]
      rw [he]
      have hpoint : ∀ (i : Nat) (t' : Topic),
          (mapIdxF (fun idx t =>
            { t with status := if idx = tgt then TStatus.active
                               else if idx < tgt then TStatus.done
                               else t.status }) 0 s.topicsState)[i]? = some t' →
          ∃ t, s.topicsState[i]? = some t ∧
            t'.status = (if i = tgt then TStatus.active
                         else if i < tgt then TStatus.done else t.status) ∧
            t'.timeLeft = t.timeLeft := by
        intro i t' hi
        rw [getElem?_mapIdxF] at hi
        cases hl : s.topicsState[i]? with
        | none => rw [hl] at hi; cases hi
        | some t =>
          rw [hl] at hi
          simp only [Option.map_some', Option.some.injEq, Nat.zero_add] at hi
          rw [← hi]
          exact ⟨t, rfl, rfl, rfl⟩
      constructor
      · intro i t' hi
        obtain ⟨t, hts, _, htime⟩ := hpoint i t' hi
        rw [htime]
        exact h.nonneg i t hts
      · intro i t' hi hstat
        obtain ⟨t, hts, hst, htime⟩ := hpoint i t' hi
        rw [hst] at hstat
        rw [htime]
        by_cases h1 : i = tgt
        · rw [if_pos h1] at hstat; cases hstat
        · rw [if_neg h1] at hstat
          by_cases h2 : i < tgt
          · rw [if_pos h2] at hstat; cases hstat
          · rw [if_neg h2] at hstat
            exact h.pend180 i t hts hstat
      · intro hni
        exact absurd rfl hni
      · intro habs
        simp at habs
      · intro tgt2 habs
        simp at habs
      · intro _
        refine ⟨by rw [length_mapIdxF]; exact htlt, ?_⟩
        intro i t' hi
        obtain ⟨t, hts, hst, _⟩ := hpoint i t' hi
        rw [hst]
        by_cases h1 : i = tgt
        · subst h1
          simp
        · by_cases h2 : i < tgt
          · simp [h1, h2]
          · have h3 : tgt < i := by omega
            simp [h1, h2]
            exact (hstats i t hts).2 h3
      · intro _
        rfl
    · cases res with
      | ok q =>
        have he : prepResolveFn s (Except.ok q) =
            { s with topicsState := mapIdxF (fun idx t =>
                       if idx = tgt then
                         { t with turns := t.turns ++ [⟨Role.ai,
                             if q = "" then "이 부분을 왜 이렇게 작성하셨나요?" else q⟩],
                                  status := TStatus.active,
                                  timeLeft := if t.timeLeft = 0 then TOPIC_SECONDS
                                              else t.timeLeft,
                                  started := true, asked := true }
                       else
                         { t with status := if idx < tgt then TStatus.done
                                            else t.status }) 0 s.topicsState,
                     currentTopicIndex := tgt, aiGenerating := false,
                     phase := .interview, advancing := false } := by
          unfold prepResolveFn
          simp only [hph]
          simp [hsome, hask]
        rw [he]
        have hpoint : ∀ (i : Nat) (t' : Topic),
            (mapIdxF (fun idx t =>
              if idx = tgt then
                { t with turns := t.turns ++ [⟨Role.ai,
                    if q = "" then "이 부분을 왜 이렇게 작성하셨나요?" else q⟩],
                         status := TStatus.active,
                         timeLeft := if t.timeLeft = 0 then TOPIC_SECONDS
                                     else t.timeLeft,
                         started := true, asked := true }
              else
                { t with status := if idx < tgt then TStatus.done
                                   else t.status }) 0 s.topicsState)[i]? = some t' →
            ∃ t, s.topicsState[i]? = some t ∧
              t'.status = (if i = tgt then TStatus.active
                           else if i < tgt then TStatus.done else t.status) ∧
              t'.timeLeft = (if i = tgt then
                (if t.timeLeft = 0 then TOPIC_SECONDS else t.timeLeft)
                else t.timeLeft) := by
          intro i t' hi
          rw [getElem?_mapIdxF] at hi
          cases hl : s.topicsState[i]? with
          | none => rw [hl] at hi; cases hi
          | some t =>
            rw [hl] at hi
            simp only [Option.map_some', Option.some.injEq, Nat.zero_add] at hi
            refine ⟨t, rfl, ?_, ?_⟩
            · rw [← hi]
              by_cases h1 : i = tgt
              · simp [h1]
              · simp [h1]
            · rw [← hi]
              by_cases h1 : i = tgt
              · simp [h1]
              · simp [h1]
        constructor
        · intro i t' hi
          obtain ⟨t, hts, _, htime⟩ := hpoint i t' hi
          rw [htime]
          by_cases h1 : i = tgt
          · rw [if_pos h1]
            by_cases h2 : t.timeLeft = 0
            · rw [if_pos h2]; decide
            · rw [if_neg h2]
              exact h.nonneg i t hts
          · rw [if_neg h1]
            exact h.nonneg i t hts
        · intro i t' hi hstat
          obtain ⟨t, hts, hst, htime⟩ := hpoint i t' hi
          rw [hst] at hstat
          rw [htime]
          by_cases h1 : i = tgt
          · rw [if_pos h1] at hstat; cases hstat
          · rw [if_neg h1] at hstat
            by_cases h2 : i < tgt
            · rw [if_pos h2] at hstat; cases hstat
            · rw [if_neg h2] at hstat
              rw [if_neg h1]
              exact h.pend180 i t hts hstat
        · intro hni
          exact absurd rfl hni
        · intro habs
          simp at habs
        · intro tgt2 habs
          simp at habs
        · intro _
          refine ⟨by rw [length_mapIdxF]; exact htlt, ?_⟩
          intro i t' hi
          obtain ⟨t, hts, hst, _⟩ := hpoint i t' hi
          rw [hst]
          by_cases h1 : i = tgt
          · subst h1
            simp
          · by_cases h2 : i < tgt
            · simp [h1, h2]
            · have h3 : tgt < i := by omega
              simp [h1, h2]
              exact (hstats i t hts).2 h3
        · intro _
          rfl
      | error e =>
        have he : prepResolveFn s (Except.error e) =
            { s with error := "첫 질문 생성에 실패했습니다. 다시 시도해 주세요.",
                     phase := .upload, aiGenerating := false,
                     advancing := false } := by
          unfold prepResolveFn
          simp only [hph]
          simp [hsome, hask]
        rw [he]
        exact inv_toBoringPhase s _ rfl rfl (by rw [hph]; simp) (by simp)
          (fun tgt2 => by simp) (by simp) h
  | upload => simp [prepResolveFn, hph]; exact h
  | analyzing => simp [prepResolveFn, hph]; exact h
  | modeSelect => simp [prepResolveFn, hph]; exact h
  | interview => simp [prepResolveFn, hph]; exact h
  | finalizing => simp [prepResolveFn, hph]; exact h
  | result => simp [prepResolveFn, hph]; exact h

theorem inv_handleSend (s : State) (h : SessionInv s) :
    SessionInv (handleSend s).1 := by
  unfold handleSend
  by_cases he : jsTrim s.studentInput = ""
  · simp only [he, if_true]
    exact h
  · cases hct : currentTopic? s with
    | none =>
      simp [he, hct]
      exact h
    | some t =>
      simp only [he, if_false, hct]
      refine inv_aux s _ rfl rfl rfl (by simp [length_mapIdxF]) ?_ h
      exact pt_of_mapIdxF s.topicsState _ (fun i tp => by
        by_cases hic : i = s.currentTopicIndex <;> simp [hic])

theorem inv_handleVoiceSubmit (s : State) (tx : String) (h : SessionInv s) :
    SessionInv (handleVoiceSubmit s tx).1 := by
  unfold handleVoiceSubmit
  by_cases hsub : s.turnSubmitted = true
  · simp only [hsub, if_true]
    exact h
  · cases hct : currentTopic? s with
    | none =>
      simp [hsub, hct]
      exact h
    | some t =>
      by_cases htr : s.isTranscribing = true
      · simp [hsub, hct, htr]
        exact h
      · simp only [hsub, Bool.false_eq_true, if_false, hct, htr]
        refine inv_aux s _ rfl rfl rfl (by simp [length_mapIdxF]) ?_ h
        exact pt_of_mapIdxF s.topicsState _ (fun i tp => by
          by_cases hic : i = s.currentTopicIndex <;> simp [hic])

theorem inv_sendResolveFn (s : State) (p : PendingGen) (res : Except Unit String)
    (h : SessionInv s) : SessionInv (sendResolveFn s p res) := by
  cases res with
  | ok q =>
    unfold sendResolveFn
    refine inv_aux s _ rfl rfl rfl (by simp [length_mapIdxF]) ?_ h
    exact pt_of_mapIdxF s.topicsState _ (fun i tp => by
      by_cases hic : i = p.origIndex <;> simp [hic])
  | error e =>
    exact inv_aux s _ rfl rfl rfl rfl (fun i t hi => ⟨t, hi, rfl, rfl⟩) h

theorem inv_tickState (s : State) (h : SessionInv s) :
    SessionInv (tickState s) := by
  unfold tickState
  by_cases hph : s.phase = Phase.interview
  · cases hct : currentTopic? s with
    | none =>
      simp [hph, hct]
      exact h
    | some t =>
      by_cases h0 : t.timeLeft ≤ 0
      · simp [hph, hct, h0]
        exact h
      · by_cases hst : shouldTick s t = true
        · simp only [hph, if_true, hct, h0, if_false, hst]
          obtain ⟨hcl, hcanon⟩ := h.intInv hph
          have hpoint : ∀ (i : Nat) (t' : Topic),
              (mapIdxF (fun idx tp =>
                if idx = s.currentTopicIndex then
                  { tp with timeLeft := max 0 (tp.timeLeft - 1) }
                else tp) 0 s.topicsState)[i]? = some t' →
              ∃ tp, s.topicsState[i]? = some tp ∧ t'.status = tp.status ∧
                t'.timeLeft = (if i = s.currentTopicIndex then
                  max 0 (tp.timeLeft - 1) else tp.timeLeft) := by
            intro i t' hi
            rw [getElem?_mapIdxF] at hi
            cases hl : s.topicsState[i]? with
            | none => rw [hl] at hi; cases hi
            | some tp =>
              rw [hl] at hi
              simp only [Option.map_some', Option.some.injEq, Nat.zero_add] at hi
              refine ⟨tp, rfl, ?_, ?_⟩
              · rw [← hi]
                by_cases hic : i = s.currentTopicIndex <;> simp [hic]
              · rw [← hi]
                by_cases hic : i = s.currentTopicIndex <;> simp [hic]
          constructor
          · intro i t' hi
            obtain ⟨tp, hts, _, htime⟩ := hpoint i t' hi
            rw [htime]
            by_cases hic : i = s.currentTopicIndex
            · rw [if_pos hic]
              exact le_max_left 0 (tp.timeLeft - 1)
            · rw [if_neg hic]
              exact h.nonneg i tp hts
          · intro i t' hi hstat
            obtain ⟨tp, hts, hst2, htime⟩ := hpoint i t' hi
            rw [hst2] at hstat
            rw [htime]
            by_cases hic : i = s.currentTopicIndex
            · exfalso
              have := hcanon i tp hts
              rw [if_neg (by omega), if_pos hic] at this
              rw [this] at hstat
              cases hstat
            · rw [if_neg hic]
              exact h.pend180 i tp hts hstat
          · intro hni
            exact absurd rfl hni
          · intro habs
            simp at habs
          · intro tgt habs
            simp at habs
          · intro _
            refine ⟨by rw [length_mapIdxF]; exact hcl, ?_⟩
            intro i t' hi
            obtain ⟨tp, hts, hst2, _⟩ := hpoint i t' hi
            rw [hst2]
            exact hcanon i tp hts
          · intro _
            rfl
        · simp [hph, hct, h0, hst]
          exact h
  · simp [hph]
    exact h

theorem inv_checkExhaustedFn (s : State) (h : SessionInv s) :
    SessionInv (checkExhaustedFn s) := by
  unfold checkExhaustedFn
  by_cases hph : s.phase = Phase.interview
  · cases hct : currentTopic? s with
    | none =>
      simp [hph, hct]
      exact h
    | some t =>
      by_cases h0 : 0 < t.timeLeft
      · simp [hph, hct, h0]
        exact h
      · by_cases hma : s.modal = some Modal.autoExit ∨ s.advancing = true
        · simp [hph, hct, h0, hma]
          exact h
        · simp only [hph, if_true, hct, h0, if_false, hma]
          constructor
          · exact h.nonneg
          · exact h.pend180
          · intro hni
            exact absurd rfl hni
          · intro habs
            simp at habs
          · intro tgt habs
            simp at habs
          · intro _
            exact h.intInv hph
          · intro _
            rfl
  · simp [hph]
    exact h

theorem inv_autoTickFn (s : State) (h : SessionInv s) :
    SessionInv (autoTickFn s) := by
  unfold autoTickFn
  by_cases hm : s.modal = some Modal.autoExit
  · have hph := h.modalAuto hm
    by_cases hc : s.autoCountdown ≤ 1
    · rw [if_pos hm, if_pos hc]
      have hinv0 : SessionInv { s with autoCountdown := 0 } :=
        inv_aux s _ rfl rfl rfl rfl (fun i t hi => ⟨t, hi, rfl, rfl⟩) h
      exact inv_completeTopicStart { s with autoCountdown := 0 } hph hinv0
    · rw [if_pos hm, if_neg hc]
      exact inv_aux s _ rfl rfl rfl rfl (fun i t hi => ⟨t, hi, rfl, rfl⟩) h
  · rw [if_neg hm]
    exact h

theorem inv_step (s : State) (e : Event) (h : SessionInv s) :
    SessionInv (step s e) := by
  cases e with
  | uploadStartEv => exact inv_uploadStartFn s h
  | analyzeResolve res =>
    by_cases hph : s.phase = Phase.analyzing
    · simp only [step, hph, if_true]
      exact inv_analyzeResolveFn s res hph h
    · simp only [step, hph, if_false]
      exact h
  | modeSelectEv m => exact inv_modeSelectFn s m h
  | prepResolve res => exact inv_prepResolveFn s res h
  | typeInput v =>
    simp only [step]
    unfold typeInputFn
    split
    · exact h
    · exact inv_aux s _ rfl rfl rfl rfl (fun i t hi => ⟨t, hi, rfl, rfl⟩) h
  | typingTimeout =>
    exact inv_aux s _ rfl rfl rfl rfl (fun i t hi => ⟨t, hi, rfl, rfl⟩) h
  | sendStartEv =>
    simp only [step]
    split
    · exact h
    · exact inv_handleSend s h
  | sendResolve p res => exact inv_sendResolveFn s p res h
  | voiceSubmitEv tx =>
    simp only [step]
    split
    · exact h
    · exact inv_handleVoiceSubmit s tx h
  | tickEv => exact inv_tickState s h
  | exhaustedEv => exact inv_checkExhaustedFn s h
  | openManualEv =>
    simp only [step]
    unfold openManualFn
    split
    · constructor
      · exact h.nonneg
      · exact h.pend180
      · exact h.act180
      · exact h.modeSel
      · exact h.prepInv
      · exact h.intInv
      · intro hmodal
        exact absurd hmodal (by simp)
    · exact h
  | cancelManualEv =>
    simp only [step]
    unfold cancelManualFn
    split
    · constructor
      · exact h.nonneg
      · exact h.pend180
      · exact h.act180
      · exact h.modeSel
      · exact h.prepInv
      · exact h.intInv
      · intro hmodal
        exact absurd hmodal (by simp)
    · exact h
  | confirmExitEv =>
    simp only [step]
    split
    · rename_i hph
      exact inv_completeTopicStart s hph h
    · exact h
  | autoTickEv => exact inv_autoTickFn s h
  | summaryResolve res =>
    by_cases hph : s.phase = Phase.finalizing
    · simp only [step, hph, if_true]
      cases res with
      | ok sum =>
        exact inv_toBoringPhase s _ rfl rfl (by rw [hph]; simp)
          (by simp [summaryResolveFn]) (fun tgt => by simp [summaryResolveFn])
          (by simp [summaryResolveFn]) h
      | error e =>
        exact inv_toBoringPhase s _ rfl rfl (by rw [hph]; simp)
          (by simp [summaryResolveFn]) (fun tgt => by simp [summaryResolveFn])
          (by simp [summaryResolveFn]) h
    · simp only [step, hph, if_false]
      exact h
  | resetEv =>
    simp only [step]
    unfold resetFn
    split
    · exact inv_initState
    · exact h
  | speakStartEv =>
    exact inv_aux s _ rfl rfl rfl rfl (fun i t hi => ⟨t, hi, rfl, rfl⟩) h
  | speakEndEv =>
    exact inv_aux s _ rfl rfl rfl rfl (fun i t hi => ⟨t, hi, rfl, rfl⟩) h
  | listenStartEv =>
    exact inv_aux s _ rfl rfl rfl rfl (fun i t hi => ⟨t, hi, rfl, rfl⟩) h
  | listenEndEv =>
    exact inv_aux s _ rfl rfl rfl rfl (fun i t hi => ⟨t, hi, rfl, rfl⟩) h
  | transcribeStartEv =>
    exact inv_aux s _ rfl rfl rfl rfl (fun i t hi => ⟨t, hi, rfl, rfl⟩) h
  | transcribeEndEv =>
    exact inv_aux s _ rfl rfl rfl rfl (fun i t hi => ⟨t, hi, rfl, rfl⟩) h

/-- Every reachable state satisfies the invariant. -/
theorem reachable_inv {s : State} (hr : Reachable s) : SessionInv s := by
  induction hr with
  | init => exact inv_initState
  | next e _ ih => exact inv_step _ e ih

theorem countP_active_zero (l : List Topic)
    (hall : ∀ (i : Nat) (t : Topic), l[i]? = some t →
      t.status ≠ TStatus.active) :
    l.countP (fun t => decide (t.status = TStatus.active)) = 0 := by
  induction l with
  | nil => rfl
  | cons a as ih =>
    rw [List.countP_cons]
    have ha := hall 0 a (by simp)
    simp only [ha, decide_False, if_false, Nat.add_zero]
    exact ih (fun i t hi => hall (i + 1) t (by simpa using hi))

theorem countP_active_of_canonical (l : List Topic) (cur : Nat)
    (hc : cur < l.length)
    (hcanon : ∀ (i : Nat) (t : Topic), l[i]? = some t →
      t.status = if i < cur then TStatus.done
                 else if i = cur then TStatus.active else TStatus.pending) :
    l.countP (fun t => decide (t.status = TStatus.active)) = 1 := by
  induction l generalizing cur with
  | nil => simp at hc
  | cons a as ih =>
    cases cur with
    | zero =>
      have ha := hcanon 0 a (by simp)
      simp only [Nat.lt_irrefl, if_false, if_pos rfl] at ha
      rw [List.countP_cons]
      simp only [ha, decide_True, if_true]
      have hz : as.countP (fun t => decide (t.status = TStatus.active)) = 0 := by
        apply countP_active_zero
        intro i t hi
        have := hcanon (i + 1) t (by simpa using hi)
        simp only [Nat.not_lt_zero, if_false, Nat.succ_ne_zero] at this
        rw [this]
        decide
      omega
    | succ c =>
      have ha := hcanon 0 a (by simp)
      simp only [Nat.zero_lt_succ, if_true] at ha
      rw [List.countP_cons]
      simp only [ha, decide_False, if_false, Nat.add_zero]
      apply ih c (by simpa using hc)
      intro i t hi
      have := hcanon (i + 1) t (by simpa using hi)
      simpa only [Nat.add_lt_add_iff_right, Nat.add_right_cancel_iff] using this

/-- C9: in every reachable state whose phase is `interview`, exactly one
topic has status `active` — preserved across session creation, topic
preparation, answer submission and advancement (all events of `step`). -/
theorem C9_unique_active (s : State) (hr : Reachable s)
    (hph : s.phase = Phase.interview) :
    s.topicsState.countP (fun t => decide (t.status = TStatus.active)) = 1 := by
  obtain ⟨hcl, hcanon⟩ := (reachable_inv hr).intInv hph
  exact countP_active_of_canonical s.topicsState s.currentTopicIndex hcl hcanon

/-- Witness for C9 at the concrete reachable two-topic interview state. -/
theorem C9_unique_active_witness :
    sInterview.topicsState.countP
      (fun t => decide (t.status = TStatus.active)) = 1 :=
  C9_unique_active sInterview (.next _ (.next _ (.next _ (.next _ .init))))
    (by decide)

theorem eq_of_same_get {l : List Topic} {i : Nat} {t t' : Topic}
    (hi : l[i]? = some t) (hi' : l[i]? = some t') : t' = t := by
  rw [hi] at hi'
  injection hi' with h
  exact h.symm

theorem timeLeft_eq_of_map {l : List Topic} {g : Nat → Topic → Topic} {i : Nat}
    {t t' : Topic} (hi : l[i]? = some t) (hi' : (mapIdxF g 0 l)[i]? = some t')
    (hg : ∀ (j : Nat) (tp : Topic), (g j tp).timeLeft = tp.timeLeft) :
    t'.timeLeft = t.timeLeft := by
  rw [getElem?_mapIdxF, hi] at hi'
  simp only [Option.map_some', Option.some.injEq, Nat.zero_add] at hi'
  rw [← hi']
  exact hg i t

theorem completeTopic_mono (s : State) (i : Nat) (t t' : Topic)
    (hi : s.topicsState[i]? = some t)
    (hi' : (completeTopicStart s).topicsState[i]? = some t')
    (hact' : t'.status = TStatus.active) :
    t'.timeLeft ≤ t.timeLeft := by
  by_cases hadv : s.advancing = true
  · rw [completeTopicStart_reentrant s hadv] at hi'
    exact le_of_eq (by rw [eq_of_same_get hi hi'])
  · have hadv2 : s.advancing = false := by
      cases hb : s.advancing
      · rfl
      · exact absurd hb hadv
    have htop : (completeTopicStart s).topicsState =
        mapIdxF (fun idx tp =>
          if idx = s.currentTopicIndex then
            { tp with status := TStatus.done, timeLeft := max 0 tp.timeLeft }
          else tp) 0 s.topicsState := by
      unfold completeTopicStart
      rw [hadv2]
      by_cases hn : s.currentTopicIndex + 1 < s.topicsState.length <;> simp [hn]
    rw [htop, getElem?_mapIdxF, hi] at hi'
    simp only [Option.map_some', Option.some.injEq, Nat.zero_add] at hi'
    by_cases hic : i = s.currentTopicIndex
    · rw [if_pos hic] at hi'
      rw [← hi'] at hact'
      simp at hact'
    · rw [if_neg hic] at hi'
      rw [← hi']

/-- C8: in every reachable state no topic's remaining time is negative,
and across every event of the orchestrator a topic that is active before
and after the step never gains time — `timeLeft` is monotonically
non-increasing while the topic is active. -/
theorem C8_time_nonneg_monotone (s : State) (hr : Reachable s) :
    (∀ (i : Nat) (t : Topic), s.topicsState[i]? = some t → 0 ≤ t.timeLeft) ∧
    (∀ (e : Event) (i : Nat) (t t' : Topic),
      s.topicsState[i]? = some t →
      (step s e).topicsState[i]? = some t' →
      t.status = TStatus.active → t'.status = TStatus.active →
      t'.timeLeft ≤ t.timeLeft) := by
  have h := reachable_inv hr
  refine ⟨h.nonneg, ?_⟩
  intro e i t t' hi hi' hact hact'
  cases e with
  | uploadStartEv =>
    simp only [step] at hi'
    unfold uploadStartFn at hi'
    split at hi' <;> exact le_of_eq (by rw [eq_of_same_get hi hi'])
  | analyzeResolve res =>
    simp only [step] at hi'
    by_cases hph : s.phase = Phase.analyzing
    swap
    · rw [if_neg hph] at hi'
      exact le_of_eq (by rw [eq_of_same_get hi hi'])
    · rw [if_pos hph] at hi'
      match res with
      | none => exact le_of_eq (by rw [eq_of_same_get hi hi'])
      | some (rawTopics, text) =>
        unfold analyzeResolveFn at hi'
        by_cases hemp : (rawTopics.take 3).isEmpty = true
        · simp only [hemp, if_true] at hi'
          exact le_of_eq (by rw [eq_of_same_get hi hi'])
        · simp only [hemp, Bool.false_eq_true, if_false] at hi'
          have h180 : t.timeLeft = TOPIC_SECONDS :=
            h.act180 (by rw [hph]; simp) i t hi hact
          have ht' : t'.timeLeft = TOPIC_SECONDS := by
            rw [getElem?_mapIdxF] at hi'
            cases hl : (rawTopics.take 3)[i]? with
            | none => rw [hl] at hi'; cases hi'
            | some tr =>
              rw [hl] at hi'
              simp only [Option.map_some', Option.some.injEq] at hi'
              rw [← hi']
          rw [ht', h180]
  | modeSelectEv m =>
    simp only [step] at hi'
    unfold modeSelectFn at hi'
    split at hi' <;> exact le_of_eq (by rw [eq_of_same_get hi hi'])
  | prepResolve res =>
    cases hph : s.phase with
    | prep tgt =>
      obtain ⟨htlt, _⟩ := h.prepInv tgt hph
      have hsome : s.topicsState[tgt]? = some s.topicsState[tgt] :=
        List.getElem?_eq_getElem htlt
      have h180 : t.timeLeft = TOPIC_SECONDS :=
        h.act180 (by rw [hph]; simp) i t hi hact
      simp only [step] at hi'
      unfold prepResolveFn at hi'
      simp only [hph] at hi'
      by_cases hask : (s.topicsState[tgt].asked &&
          s.topicsState[tgt].turns.any
            (fun turn => decide (turn.role = Role.ai))) = true
      · simp only [hsome, hask, if_true] at hi'
        have := timeLeft_eq_of_map hi hi' (fun j tp => rfl)
        exact le_of_eq (by rw [this])
      · simp only [hsome, hask, Bool.false_eq_true, if_false] at hi'
        cases res with
        | ok q =>
          rw [getElem?_mapIdxF, hi] at hi'
          simp only [Option.map_some', Option.some.injEq, Nat.zero_add] at hi'
          by_cases hic : i = tgt
          · rw [if_pos hic] at hi'
            have ht' : t'.timeLeft =
                (if t.timeLeft = 0 then TOPIC_SECONDS else t.timeLeft) := by
              rw [← hi']
            rw [ht', h180]
            simp [TOPIC_SECONDS]
          · rw [if_neg hic] at hi'
            exact le_of_eq (by rw [← hi'])
        | error err =>
          exact le_of_eq (by rw [eq_of_same_get hi hi'])
    | upload =>
      simp only [step] at hi'
      unfold prepResolveFn at hi'
      simp only [hph] at hi'
      exact le_of_eq (by rw [eq_of_same_get hi hi'])
    | analyzing =>
      simp only [step] at hi'
      unfold prepResolveFn at hi'
      simp only [hph] at hi'
      exact le_of_eq (by rw [eq_of_same_get hi hi'])
    | modeSelect =>
      simp only [step] at hi'
      unfold prepResolveFn at hi'
      simp only [hph] at hi'
      exact le_of_eq (by rw [eq_of_same_get hi hi'])
    | interview =>
      simp only [step] at hi'
      unfold prepResolveFn at hi'
      simp only [hph] at hi'
      exact le_of_eq (by rw [eq_of_same_get hi hi'])
    | finalizing =>
      simp only [step] at hi'
      unfold prepResolveFn at hi'
      simp only [hph] at hi'
      exact le_of_eq (by rw [eq_of_same_get hi hi'])
    | result =>
      simp only [step] at hi'
      unfold prepResolveFn at hi'
      simp only [hph] at hi'
      exact le_of_eq (by rw [eq_of_same_get hi hi'])
  | typeInput v =>
    simp only [step] at hi'
    unfold typeInputFn at hi'
    split at hi' <;> exact le_of_eq (by rw [eq_of_same_get hi hi'])
  | typingTimeout =>
    simp only [step] at hi'
    exact le_of_eq (by rw [eq_of_same_get hi hi'])
  | sendStartEv =>
    simp only [step] at hi'
    split at hi'
    · exact le_of_eq (by rw [eq_of_same_get hi hi'])
    · unfold handleSend at hi'
      by_cases he : jsTrim s.studentInput = ""
      · simp only [he, if_true] at hi'
        exact le_of_eq (by rw [eq_of_same_get hi hi'])
      · cases hct : currentTopic? s with
        | none =>
          simp only [he, if_false, hct] at hi'
          exact le_of_eq (by rw [eq_of_same_get hi hi'])
        | some tc =>
          simp only [he, if_false, hct] at hi'
          have := timeLeft_eq_of_map hi hi' (fun j tp => by
            by_cases hic : j = s.currentTopicIndex <;> simp [hic])
          exact le_of_eq (by rw [this])
  | sendResolve p res =>
    simp only [step] at hi'
    cases res with
    | ok q =>
      unfold sendResolveFn at hi'
      have := timeLeft_eq_of_map hi hi' (fun j tp => by
        by_cases hic : j = p.origIndex <;> simp [hic])
      exact le_of_eq (by rw [this])
    | error err =>
      unfold sendResolveFn at hi'
      exact le_of_eq (by rw [eq_of_same_get hi hi'])
  | voiceSubmitEv tx =>
    simp only [step] at hi'
    split at hi'
    · exact le_of_eq (by rw [eq_of_same_get hi hi'])
    · unfold handleVoiceSubmit at hi'
      by_cases hsub : s.turnSubmitted = true
      · simp only [hsub, if_true] at hi'
        exact le_of_eq (by rw [eq_of_same_get hi hi'])
      · cases hct : currentTopic? s with
        | none =>
          simp only [hsub, Bool.false_eq_true, if_false, hct] at hi'
          exact le_of_eq (by rw [eq_of_same_get hi hi'])
        | some tc =>
          by_cases htr : s.isTranscribing = true
          · simp only [hsub, Bool.false_eq_true, if_false, hct, htr,
              if_true] at hi'
            exact le_of_eq (by rw [eq_of_same_get hi hi'])
          · simp only [hsub, Bool.false_eq_true, if_false, hct, htr] at hi'
            have := timeLeft_eq_of_map hi hi' (fun j tp => by
              by_cases hic : j = s.currentTopicIndex <;> simp [hic])
            exact le_of_eq (by rw [this])
  | tickEv =>
    simp only [step] at hi'
    unfold tickState at hi'
    by_cases hph : s.phase = Phase.interview
    · cases hct : currentTopic? s with
      | none =>
        simp only [hph, if_true, hct] at hi'
        exact le_of_eq (by rw [eq_of_same_get hi hi'])
      | some tc =>
        by_cases h0 : tc.timeLeft ≤ 0
        · simp only [hph, if_true, hct, h0] at hi'
          exact le_of_eq (by rw [eq_of_same_get hi hi'])
        · by_cases hst : shouldTick s tc = true
          · simp only [hph, if_true, hct, h0, if_false, hst] at hi'
            rw [getElem?_mapIdxF, hi] at hi'
            simp only [Option.map_some', Option.some.injEq, Nat.zero_add] at hi'
            by_cases hic : i = s.currentTopicIndex
            · rw [if_pos hic] at hi'
              have hnn := h.nonneg i t hi
              have ht' : t'.timeLeft = max 0 (t.timeLeft - 1) := by rw [← hi']
              rw [ht']
              omega
            · rw [if_neg hic] at hi'
              exact le_of_eq (by rw [← hi'])
          · simp only [hph, if_true, hct, h0, if_false, hst] at hi'
            exact le_of_eq (by rw [eq_of_same_get hi hi'])
    · simp only [hph, if_false] at hi'
      exact le_of_eq (by rw [eq_of_same_get hi hi'])
  | exhaustedEv =>
    simp only [step] at hi'
    unfold checkExhaustedFn at hi'
    by_cases hph : s.phase = Phase.interview
    · cases hct : currentTopic? s with
      | none =>
        simp only [hph, if_true, hct] at hi'
        exact le_of_eq (by rw [eq_of_same_get hi hi'])
      | some tc =>
        by_cases h0 : 0 < tc.timeLeft
        · simp only [hph, if_true, hct, h0, if_true] at hi'
          exact le_of_eq (by rw [eq_of_same_get hi hi'])
        · by_cases hma : s.modal = some Modal.autoExit ∨ s.advancing = true
          · simp only [hph, if_true, hct, h0, hma, if_true] at hi'
            exact le_of_eq (by rw [eq_of_same_get hi hi'])
          · simp only [hph, if_true, hct, h0, hma, if_false] at hi'
            exact le_of_eq (by rw [eq_of_same_get hi hi'])
    · simp only [hph, if_false] at hi'
      exact le_of_eq (by rw [eq_of_same_get hi hi'])
  | openManualEv =>
    simp only [step] at hi'
    unfold openManualFn at hi'
    split at hi' <;> exact le_of_eq (by rw [eq_of_same_get hi hi'])
  | cancelManualEv =>
    simp only [step] at hi'
    unfold cancelManualFn at hi'
    split at hi' <;> exact le_of_eq (by rw [eq_of_same_get hi hi'])
  | confirmExitEv =>
    simp only [step] at hi'
    split at hi'
    · exact completeTopic_mono s i t t' hi hi' hact'
    · exact le_of_eq (by rw [eq_of_same_get hi hi'])
  | autoTickEv =>
    simp only [step] at hi'
    unfold autoTickFn at hi'
    by_cases hm : s.modal = some Modal.autoExit
    · by_cases hc : s.autoCountdown ≤ 1
      · rw [if_pos hm, if_pos hc] at hi'
        exact completeTopic_mono { s with autoCountdown := 0 } i t t' hi hi' hact'
      · rw [if_pos hm, if_neg hc] at hi'
        exact le_of_eq (by rw [eq_of_same_get hi hi'])
    · rw [if_neg hm] at hi'
      exact le_of_eq (by rw [eq_of_same_get hi hi'])
  | summaryResolve res =>
    simp only [step] at hi'
    by_cases hph : s.phase = Phase.finalizing
    · rw [if_pos hph] at hi'
      cases res with
      | ok sum =>
        unfold summaryResolveFn at hi'
        exact le_of_eq (by rw [eq_of_same_get hi hi'])
      | error err =>
        unfold summaryResolveFn at hi'
        exact le_of_eq (by rw [eq_of_same_get hi hi'])
    · rw [if_neg hph] at hi'
      exact le_of_eq (by rw [eq_of_same_get hi hi'])
  | resetEv =>
    simp only [step] at hi'
    unfold resetFn at hi'
    split at hi'
    · have hnil : (initState).topicsState[i]? = some t' := hi'
      simp [initState] at hnil
    · exact le_of_eq (by rw [eq_of_same_get hi hi'])
  | speakStartEv =>
    simp only [step] at hi'
    exact le_of_eq (by rw [eq_of_same_get hi hi'])
  | speakEndEv =>
    simp only [step] at hi'
    exact le_of_eq (by rw [eq_of_same_get hi hi'])
  | listenStartEv =>
    simp only [step] at hi'
    exact le_of_eq (by rw [eq_of_same_get hi hi'])
  | listenEndEv =>
    simp only [step] at hi'
    exact le_of_eq (by rw [eq_of_same_get hi hi'])
  | transcribeStartEv =>
    simp only [step] at hi'
    exact le_of_eq (by rw [eq_of_same_get hi hi'])
  | transcribeEndEv =>
    simp only [step] at hi'
    exact le_of_eq (by rw [eq_of_same_get hi hi'])

/-- Witness for C8 at the reachable interview state, taking one timer
tick: topic 0 stays active and its time drops from 180 to 179 ≤ 180. -/
theorem C8_time_nonneg_monotone_witness :
    (∀ (i : Nat) (t : Topic), sInterview.topicsState[i]? = some t →
      0 ≤ t.timeLeft) ∧
    ((step sInterview .tickEv).topicsState[0]?).map (fun t => t.timeLeft) =
      some 179 ∧
    (step sInterview .tickEv).topicsState[0]?.map (fun t => t.status) =
      some TStatus.active := by
  refine ⟨?_, by decide, by decide⟩
  exact (C8_time_nonneg_monotone sInterview
    (.next _ (.next _ (.next _ (.next _ .init))))).1

end HomeworkValidator
